import Mathlib

/-!
Verification of the entity-resolution core of mini-graph-RAG.

The resolver (`tiny_graph_rag/graph/entity_resolution.py`) is embedded
directly from the source.  The graph container (`Entity`, `Relationship`,
`KnowledgeGraph` from `tiny_graph_rag/graph/models.py`) is not part of the
provided sources, so it is modelled from the specification (§3, §4.1) and
from the behaviour its tests pin down.

Python values are modelled as follows: `str` as `String` (with ASCII
`lower`/`upper`, which agrees with Python on all inputs used here), `float`
as `Rat`, parsed JSON documents as the inductive `JValue`, dictionaries as
insertion-ordered association lists, and exceptions as `Except Unit`.
-/

namespace MiniGraphRag

/-- A parsed JSON value, as produced by the LLM transport's `chat_json`. -/
inductive JValue where
  | jnull : JValue
  | jbool (b : Bool) : JValue
  | jnum (q : Rat) : JValue
  | jstr (s : String) : JValue
  | jarr (xs : List JValue) : JValue
  | jobj (fields : List (String × JValue)) : JValue

/-- A JSON object (Python dict) is an association list of fields. -/
abbrev JObj := List (String × JValue)

/-- `dict.get(key)`: first field with the given key, if any. -/
def jGet (obj : JObj) (key : String) : Option JValue :=
  (obj.find? (fun f => f.1 = key)).map (fun f => f.2)

/-- `dict.get(key, default)`. -/
def jGetD (obj : JObj) (key : String) (dflt : JValue) : JValue :=
  (jGet obj key).getD dflt

/-- Digits of a decimal string, as a natural number with its length.
Returns `none` on a non-digit or on an empty list. -/
def parseDigits : List Char → Option (Nat × Nat)
  | [] => none
  | [c] => if c.isDigit then some (c.toNat - 48, 1) else none
  | c :: rest =>
      if c.isDigit then
        match parseDigits rest with
        | some (n, k) => some ((c.toNat - 48) * 10 ^ k + n, k + 1)
        | none => none
      else none

/-- Fraction part `.d₁…dₖ` as a rational. -/
def parseFrac (cs : List Char) : Option Rat :=
  match parseDigits cs with
  | some (n, k) => some ((n : Rat) / (10 ^ k : Nat))
  | none => none

/-- Python `float(s)` on simple decimal strings (optional sign, integer
part, optional fractional part).  Exponents, whitespace, underscores and
`inf`/`nan` forms are not modelled; no verified claim exercises them. -/
def parseDecimalCore (cs : List Char) : Option Rat :=
  match cs.span (fun c => c.isDigit) with
  | (intPart, rest) =>
    match rest with
    | [] => (parseDigits intPart).map (fun p => (p.1 : Rat))
    | '.' :: fracPart =>
        match intPart, fracPart with
        | [], [] => none
        | [], _ => parseFrac fracPart
        | _, [] => (parseDigits intPart).map (fun p => (p.1 : Rat))
        | _, _ =>
            match parseDigits intPart, parseFrac fracPart with
            | some p, some f => some ((p.1 : Rat) + f)
            | _, _ => none
    | _ => none

/-- Python `float(s)` including an optional leading sign. -/
def parseDecimal (s : String) : Option Rat :=
  match s.data with
  | '-' :: rest => (parseDecimalCore rest).map (fun q => -q)
  | '+' :: rest => parseDecimalCore rest
  | cs => parseDecimalCore cs

/-- Python's `float(x)` builtin on a parsed JSON value: numbers convert,
booleans convert to 0/1, decimal strings parse; `None`, lists and dicts
raise (`TypeError`), non-numeric strings raise (`ValueError`). -/
def pyFloat : JValue → Except Unit Rat
  | .jnum q => .ok q
  | .jbool b => .ok (if b then 1 else 0)
  | .jstr s =>
      match parseDecimal s with
      | some q => .ok q
      | none => .error ()
  | _ => .error ()

/-- Boolean infix test on character lists: Python's `needle in hay`. -/
def isInfixChars (needle : List Char) : List Char → Bool
  | [] => needle.isEmpty
  | c :: rest => needle.isPrefixOf (c :: rest) || isInfixChars needle rest

/-- Python's substring containment `needle in hay`. -/
def containsSub (hay needle : String) : Bool :=
  isInfixChars needle.data hay.data

/-- ASCII lower-casing of one character. -/
def charLower (c : Char) : Char :=
  if 65 ≤ c.toNat ∧ c.toNat ≤ 90 then Char.ofNat (c.toNat + 32) else c

/-- ASCII upper-casing of one character. -/
def charUpper (c : Char) : Char :=
  if 97 ≤ c.toNat ∧ c.toNat ≤ 122 then Char.ofNat (c.toNat - 32) else c

/-- Python `str.lower()`.  Modelled for the ASCII range; the Korean
characters appearing in the configuration are caseless, so they agree. -/
def pyLower (s : String) : String :=
  ⟨s.data.map charLower⟩

/-- Python `str.upper()` (ASCII range, as for `pyLower`). -/
def pyUpper (s : String) : String :=
  ⟨s.data.map charUpper⟩

/-- Lexicographic strict order on character lists by code point
(Python string `<`). -/
def charListLt : List Char → List Char → Bool
  | [], [] => false
  | [], _ :: _ => true
  | _ :: _, [] => false
  | a :: as, b :: bs =>
      a.toNat < b.toNat || (a.toNat = b.toNat && charListLt as bs)

/-- Python string comparison `a < b` (code-point lexicographic). -/
def strLt (a b : String) : Bool :=
  charListLt a.data b.data

/-- Insert into an ascending list of strings (helper for `sortStrings`). -/
def insertSorted (x : String) : List String → List String
  | [] => [x]
  | y :: ys => if strLt y x then y :: insertSorted x ys else x :: y :: ys

/-- Python `sorted(...)` on strings (insertion sort, ascending by code
point). -/
def sortStrings (l : List String) : List String :=
  l.foldr insertSorted []

/-- Insert into a set-like list, keeping first-insertion order
(Python `set.add` joined with deterministic accumulation order;
only membership is ever observed). -/
def insertUniq (xs : List String) (x : String) : List String :=
  if x ∈ xs then xs else xs ++ [x]

/-- Modelled from the spec (§3): an entity record of `models.py` (not in
the provided sources) — id, canonical name, type tag, description,
ordered alias set and source-chunk provenance. -/
structure Entity where
  entity_id : String
  name : String
  entity_type : String
  description : String
  aliases : List String := []
  source_chunks : List String := []
deriving DecidableEq

/-- Modelled from the spec (§3): a directed relationship record of
`models.py` (not in the provided sources). -/
structure Relationship where
  relationship_id : String
  source_entity_id : String
  target_entity_id : String
  relationship_type : String
  description : String := ""
deriving DecidableEq

/-- Modelled from the spec (§3): the graph container of `models.py`
(not in the provided sources).  Entities are kept in insertion order
(Python dict order); the lowercase name/alias index is a derived view, so
it is recomputed by `get_entity_by_name` rather than stored. -/
structure KnowledgeGraph where
  entities : List Entity
  relationships : List Relationship
deriving DecidableEq

namespace KnowledgeGraph

/-- Modelled from the spec (§4.1): `get_entity(id)`. -/
def get_entity (g : KnowledgeGraph) (eid : String) : Option Entity :=
  g.entities.find? (fun e => e.entity_id = eid)

/-- Does `name` (already lowercased) hit this entity's lowercased name or
one of its lowercased aliases? -/
def matchesName (e : Entity) (lowered : String) : Bool :=
  pyLower e.name = lowered || e.aliases.any (fun a => pyLower a = lowered)

/-- Modelled from the spec (§4.1): `get_entity_by_name(name)`,
case-insensitive exact match against name or any alias. -/
def get_entity_by_name (g : KnowledgeGraph) (name : String) : Option Entity :=
  g.entities.find? (fun e => matchesName e (pyLower name))

/-- Modelled from the spec (§4.1): `get_relationships_for_entity(id)` —
all edges where `id` is source or target. -/
def get_relationships_for_entity (g : KnowledgeGraph) (eid : String) :
    List Relationship :=
  g.relationships.filter
    (fun r => r.source_entity_id = eid || r.target_entity_id = eid)

/-- Modelled from the spec (§4.1): `get_neighbors(id, hops=1)` — ids one
undirected edge away, excluding the origin. -/
def neighborIds (g : KnowledgeGraph) (eid : String) : List String :=
  ((g.relationships.filterMap (fun r =>
      if r.source_entity_id = eid then some r.target_entity_id
      else if r.target_entity_id = eid then some r.source_entity_id
      else none)).filter (fun x => x ≠ eid)).dedup

/-- Modelled from the spec (§4.1): fold one entity record into another
during `merge_entities` — description appended when it is new text, the
duplicate's name recorded as an alias, aliases and source chunks unioned
(aliases never include the canonical's own name). -/
def mergeRecords (c d : Entity) : Entity :=
  let desc :=
    if d.description = "" || containsSub c.description d.description then
      c.description
    else if c.description = "" then d.description
    else c.description ++ " " ++ d.description
  let aliases1 :=
    if d.name = c.name || d.name ∈ c.aliases then c.aliases
    else c.aliases ++ [d.name]
  let aliases2 := d.aliases.foldl
    (fun acc a => if a = c.name || a ∈ acc then acc else acc ++ [a]) aliases1
  let chunks := d.source_chunks.foldl
    (fun acc s => if s ∈ acc then acc else acc ++ [s]) c.source_chunks
  { c with description := desc, aliases := aliases2, source_chunks := chunks }

/-- Rewrite one endpoint id. -/
def remapId (oldId newId x : String) : String :=
  if x = oldId then newId else x

/-- Keep the first relationship of every (source, target, type) triple.
Structural recursion on a fuel bound (the list length always suffices,
since filtering never lengthens the tail). -/
def dedupRelsAux : Nat → List Relationship → List Relationship
  | _, [] => []
  | 0, _ :: _ => []
  | fuel + 1, r :: rest =>
      r :: dedupRelsAux fuel (rest.filter (fun r' =>
        ¬(r'.source_entity_id = r.source_entity_id ∧
          r'.target_entity_id = r.target_entity_id ∧
          r'.relationship_type = r.relationship_type)))

/-- Keep the first relationship of every (source, target, type) triple. -/
def dedupRels (rels : List Relationship) : List Relationship :=
  dedupRelsAux rels.length rels

/-- Modelled from the spec (§4.1): `merge_entities(canonical_id,
duplicate_id)`.  Fails silently when either id is absent or the ids are
equal; otherwise absorbs the duplicate record, remaps its edges, drops
edges that became canonical self-loops, deduplicates identical
(source, target, type) triples keeping the first, and removes the
duplicate entity. -/
def merge_entities (g : KnowledgeGraph) (canonicalId duplicateId : String) :
    KnowledgeGraph × Bool :=
  if canonicalId = duplicateId then (g, false)
  else
    match g.get_entity canonicalId, g.get_entity duplicateId with
    | some c, some d =>
        let merged := mergeRecords c d
        let entities := (g.entities.filter
            (fun e => e.entity_id ≠ duplicateId)).map
          (fun e => if e.entity_id = canonicalId then merged else e)
        let remapped := g.relationships.map (fun r =>
          { r with
            source_entity_id := remapId duplicateId canonicalId r.source_entity_id,
            target_entity_id := remapId duplicateId canonicalId r.target_entity_id })
        let noLoops := remapped.filter (fun r =>
          ¬(r.source_entity_id = canonicalId ∧ r.target_entity_id = canonicalId))
        ({ entities := entities, relationships := dedupRels noLoops }, true)
    | _, _ => (g, false)

end KnowledgeGraph

/-- A group of role terms that may refer to the same character
(`entity_resolution.RoleBucket`). -/
structure RoleBucket where
  name : String
  terms : List String
  reassign_aliases : Bool := false
deriving DecidableEq

/-- Domain and language-specific settings for entity resolution
(`entity_resolution.EntityResolutionConfig`).  The Python frozensets are
modelled as lists; only membership is ever observed. -/
structure EntityResolutionConfig where
  person_like_keywords : List String
  generic_role_terms : List String
  role_buckets : List RoleBucket
  non_merge_relation_types : List String
deriving DecidableEq

/-- `entity_resolution.default_config()`: default config for multilingual
literature (Korean + English), transcribed term for term. -/
def default_config : EntityResolutionConfig :=
  let spouse_terms := ["아내", "마누라", "그의 아내", "남편", "부인",
    "wife", "husband", "spouse"]
  let patient_terms := ["병인", "병자", "환자", "앓는 이", "이 환자",
    "patient", "invalid"]
  let parent_terms := ["어머니", "엄마", "아버지", "아빠", "부모",
    "mother", "father", "mom", "dad"]
  let child_terms := ["아들", "딸", "자식", "son", "daughter", "child"]
  let sibling_terms := ["형", "오빠", "누나", "언니", "동생",
    "brother", "sister", "sibling"]
  let servant_worker_terms := ["하인", "종", "인력거꾼", "차부",
    "servant", "maid", "driver", "coachman"]
  { person_like_keywords := [
      "아내", "마누라", "남편", "부인",
      "환자", "병자", "병인",
      "오라질",
      "주정꾼", "주정뱅이", "인력거꾼", "차부",
      "하인", "종",
      "어머니", "엄마", "아버지", "아빠",
      "아들", "딸", "자식",
      "형", "오빠", "누나", "언니", "동생",
      "wife", "husband", "spouse",
      "mother", "father", "mom", "dad",
      "son", "daughter",
      "brother", "sister", "sibling",
      "patient", "invalid",
      "driver", "drunkard", "servant", "maid", "coachman",
      "narrator", "doctor", "nurse", "teacher", "priest"],
    generic_role_terms := [
      "아내", "마누라", "남편", "부인",
      "환자", "병자", "병인",
      "주정꾼", "주정뱅이", "인력거꾼", "차부",
      "어머니", "엄마", "아버지", "아빠",
      "아들", "딸", "자식",
      "형", "오빠", "누나", "언니", "동생",
      "하인", "종",
      "그", "그녀", "이 사람", "저 사람", "그 사람",
      "he", "she", "they", "him", "her", "them",
      "wife", "husband", "spouse",
      "mother", "father", "mom", "dad",
      "son", "daughter",
      "brother", "sister",
      "patient", "doctor", "nurse",
      "narrator", "servant", "maid", "driver",
      "teacher", "priest"],
    role_buckets := [
      { name := "spouse", terms := spouse_terms, reassign_aliases := true },
      { name := "patient", terms := patient_terms },
      { name := "parent", terms := parent_terms },
      { name := "child", terms := child_terms },
      { name := "sibling", terms := sibling_terms },
      { name := "servant_worker", terms := servant_worker_terms }],
    non_merge_relation_types := [
      "MARRIED_TO", "PARENT_OF", "CHILD_OF", "SIBLING_OF",
      "FRIEND_OF", "KNOWS"] }

/-- The resolver's scalar parameters (`LLMEntityResolver` dataclass fields;
the LLM client itself is passed separately as an oracle). -/
structure Resolver where
  min_confidence : Rat := mkRat 3 4
  max_entities_per_pass : Nat := 80
  config : EntityResolutionConfig := default_config

namespace Resolver

open KnowledgeGraph

/-- `_is_person_like_entity`: PERSON-typed, or a configured person-like
keyword occurs in the lowercased `name description` text. -/
def isPersonLike (cfg : EntityResolutionConfig) (e : Entity) : Bool :=
  e.entity_type = "PERSON" ||
    cfg.person_like_keywords.any
      (fun k => containsSub (pyLower (e.name ++ " " ++ e.description)) k)

/-- The compiled `_generic_role_pattern` applied to a name:
`re.match(r"^(t₁|t₂|…)$", name)` with every configured term escaped.
With full anchors this holds exactly when the name is one of the terms,
or one of the terms followed by a trailing newline (Python's `$` also
matches just before a final newline).  The degenerate empty-config pattern
`^()$` matches exactly the empty string and a lone newline. -/
def genericRoleMatch (cfg : EntityResolutionConfig) (name : String) : Bool :=
  match cfg.generic_role_terms with
  | [] => name = "" || name = "\n"
  | _ => cfg.generic_role_terms.any (fun t => name = t || name = t ++ "\n")

/-- `_role_bucket`: the first configured bucket one of whose terms occurs
in the lowercased `name description` text. -/
def roleBucket (cfg : EntityResolutionConfig) (e : Entity) : Option String :=
  ((cfg.role_buckets.find? (fun b =>
      b.terms.any (fun t =>
        containsSub (pyLower (e.name ++ " " ++ e.description)) t))).map
    (fun b => b.name))

/-- `_get_direct_relation_types`: upper-cased types of edges directly
connecting the pair, in either direction (a set, accumulated in
first-seen order). -/
def directRelTypes (g : KnowledgeGraph) (leftId rightId : String) :
    List String :=
  g.relationships.foldl
    (fun acc rel =>
      if (rel.source_entity_id = leftId && rel.target_entity_id = rightId) ||
         (rel.source_entity_id = rightId && rel.target_entity_id = leftId) then
        insertUniq acc (pyUpper rel.relationship_type)
      else acc)
    []

/-- `_is_non_mergeable_pair`: some direct relation type between the pair
lies in the configured non-merge set. -/
def isNonMergeablePair (cfg : EntityResolutionConfig) (g : KnowledgeGraph)
    (leftId rightId : String) : Bool :=
  (directRelTypes g leftId rightId).any
    (fun t => t ∈ cfg.non_merge_relation_types)

/-- The composite canonical-selection score of `_select_canonical_id`:
(votes, +1 if PERSON, −1 if the name matches the generic-role pattern,
relationship degree). -/
def entityScore (cfg : EntityResolutionConfig) (g : KnowledgeGraph)
    (votes : List (String × Nat)) (eid : String) (e : Entity) :
    Int × Int × Int × Int :=
  let voteScore : Int := ((votes.find? (fun v => v.1 = eid)).map
    (fun v => v.2)).getD 0
  let personBonus : Int := if e.entity_type = "PERSON" then 1 else 0
  let rolePenalty : Int := if genericRoleMatch cfg e.name then -1 else 0
  let relationCount : Int := (g.get_relationships_for_entity eid).length
  (voteScore, personBonus, rolePenalty, relationCount)

/-- Strict lexicographic order on score quadruples (Python tuple
comparison). -/
def scoreLt (x y : Int × Int × Int × Int) : Bool :=
  decide (x.1 < y.1) ||
    (decide (x.1 = y.1) &&
      (decide (x.2.1 < y.2.1) ||
        (decide (x.2.1 = y.2.1) &&
          (decide (x.2.2.1 < y.2.2.1) ||
            (decide (x.2.2.1 = y.2.2.1) && decide (x.2.2.2 < y.2.2.2))))))

/-- Strict lexicographic order on (score, entity id) candidate pairs,
mirroring Python tuple comparison in `candidates.sort(reverse=True)`;
string comparison is by code points, as in Python. -/
def candLt (x y : (Int × Int × Int × Int) × String) : Bool :=
  scoreLt x.1 y.1 || (decide (x.1 = y.1) && strLt x.2 y.2)

/-- `_select_canonical_id`: score every still-present candidate and take
the maximum of the (score, id) pairs — the head of the list sorted in
reverse. -/
def selectCanonicalId (cfg : EntityResolutionConfig) (g : KnowledgeGraph)
    (entityIds : List String) (votes : List (String × Nat)) :
    Option String :=
  let candidates := entityIds.filterMap (fun eid =>
    (g.get_entity eid).map (fun e => (entityScore cfg g votes eid e, eid)))
  match candidates with
  | [] => none
  | c :: rest =>
      some (rest.foldl (fun best x => if candLt best x then x else best) c).2

end Resolver

/-- One shared-neighbor annotation inside a candidate-pair signal. -/
structure SharedNeighbor where
  neighbor_name : String
  left_relations : List String
  right_relations : List String
deriving DecidableEq

/-- The evidence bundle `_build_pair_signal` emits for a candidate pair;
absent optional dict keys are modelled as empty lists / `none`. -/
structure PairSignal where
  left_id : String
  right_id : String
  shared_neighbors : List SharedNeighbor := []
  direct_relations : List String := []
  same_role_bucket : Option String := none
  co_occurring_chunks : List String := []
deriving DecidableEq

/-- An insertion-ordered association list standing for a Python dict. -/
abbrev AList (α : Type) := List (String × α)

/-- Dict lookup. -/
def aGet {α : Type} (m : AList α) (k : String) : Option α :=
  (m.find? (fun p => p.1 = k)).map (fun p => p.2)

/-- Dict assignment `m[k] = v` (insert at the end when absent). -/
def aSet {α : Type} (m : AList α) (k : String) (v : α) : AList α :=
  if (m.find? (fun p => p.1 = k)).isSome then
    m.map (fun p => if p.1 = k then (k, v) else p)
  else m ++ [(k, v)]

/-- Dict `m.setdefault(k, k)` on the union-find parent map. -/
def pSetdefault (m : AList String) (k : String) : AList String :=
  if (m.find? (fun p => p.1 = k)).isSome then m else m ++ [(k, k)]

namespace Resolver

open KnowledgeGraph

/-- The `find` closure of `_apply_merge_groups`: follow parent pointers
with `setdefault` insertion and path compression, returning the root and
the updated parent map.  The fuel argument bounds the chain length; with
fuel `|parent| + 1` it never runs out on the acyclic forests `union`
constructs. -/
def ufFindAux : Nat → AList String → String → String × AList String
  | 0, parent, node => (node, parent)
  | fuel + 1, parent, node =>
      match aGet parent node with
      | none => (node, parent ++ [(node, node)])
      | some root =>
          if root = node then (node, parent)
          else
            let (r, parent') := ufFindAux fuel parent root
            (r, aSet parent' node r)

/-- `find(node)` with adequate fuel. -/
def ufFind (parent : AList String) (node : String) : String × AList String :=
  ufFindAux (parent.length + 1) parent node

/-- The `union` closure of `_apply_merge_groups`: point the right root at
the left root. -/
def ufUnion (parent : AList String) (left right : String) : AList String :=
  let (leftRoot, p1) := ufFind parent left
  let (rightRoot, p2) := ufFind p1 right
  if leftRoot = rightRoot then p2 else aSet p2 rightRoot leftRoot

/-- The duplicate-id loop body of `_apply_merge_groups`: skip non-string
ids, ids of absent or non-person-like entities, and pairs with a direct
non-mergeable relation to the canonical; otherwise union the pair. -/
def processDuplicate (cfg : EntityResolutionConfig) (g : KnowledgeGraph)
    (canonicalId : String) (parent : AList String) (dv : JValue) :
    AList String :=
  match dv with
  | .jstr duplicateId =>
      match g.get_entity duplicateId with
      | some duplicate =>
          if ¬isPersonLike cfg duplicate then parent
          else if isNonMergeablePair cfg g canonicalId duplicateId then parent
          else
            ufUnion (pSetdefault (pSetdefault parent canonicalId) duplicateId)
              canonicalId duplicateId
      | none => parent
  | _ => parent

/-- The per-group body of `_apply_merge_groups`' first loop: convert the
confidence with `float(...)` (which can raise), gate on `min_confidence`
(strict `<`), validate the canonical id, count its vote, and union the
surviving duplicates. -/
def processGroup (r : Resolver) (g : KnowledgeGraph)
    (st : List (String × Nat) × AList String) (group : JObj) :
    Except Unit (List (String × Nat) × AList String) := do
  let (votes, parent) := st
  let canonicalVal := jGetD group "canonical_entity_id" .jnull
  let duplicatesVal := jGetD group "duplicate_entity_ids" (.jarr [])
  let confidence ← pyFloat (jGetD group "confidence" (.jnum 0))
  if confidence < r.min_confidence then
    return st
  match canonicalVal with
  | .jstr canonicalId =>
      match duplicatesVal with
      | .jarr duplicateIds =>
          match g.get_entity canonicalId with
          | some canonical =>
              if ¬isPersonLike r.config canonical then return st
              else
                let votes' :=
                  match votes.find? (fun v => v.1 = canonicalId) with
                  | some v =>
                      votes.map (fun p =>
                        if p.1 = canonicalId then (canonicalId, v.2 + 1) else p)
                  | none => votes ++ [(canonicalId, 1)]
                return (votes',
                  duplicateIds.foldl (processDuplicate r.config g canonicalId)
                    parent)
          | none => return st
      | _ => return st
  | _ => return st

/-- The cluster-collection loop of `_apply_merge_groups`: iterate the
parent map's keys in insertion order, grouping each id under its root
(`find` keeps compressing paths as in the source). -/
def buildClusters (parent : AList String) :
    AList (List String) :=
  ((parent.map (fun p => p.1)).foldl
    (fun (acc : AList String × AList (List String)) k =>
      let (p, clusters) := acc
      let (root, p') := ufFind p k
      match aGet clusters root with
      | some members => (p', aSet clusters root (members ++ [k]))
      | none => (p', clusters ++ [(root, [k])])
    ) (parent, [])).2

/-- The final merging loop of `_apply_merge_groups`: for each cluster of
two or more ids, select a canonical and absorb every other still-present
member into it. -/
def mergeClusters (r : Resolver) (g : KnowledgeGraph)
    (clusters : List (List String)) (votes : List (String × Nat)) :
    KnowledgeGraph :=
  clusters.foldl
    (fun g members =>
      if members.length < 2 then g
      else
        match selectCanonicalId r.config g members votes with
        | none => g
        | some canonicalId =>
            -- `if not canonical_id: continue` — Python also treats the
            -- empty-string id as falsy
            if canonicalId = "" then g
            else members.foldl
              (fun g eid =>
                if eid = canonicalId then g
                else if (g.get_entity eid).isNone then g
                else (g.merge_entities canonicalId eid).1)
              g)
    g

/-- `_apply_merge_groups`: union-find over the accepted (canonical,
duplicate) pairs of all confidence-gated groups, then merge every
resulting cluster of size ≥ 2 under the composite-score canonical.
Raises (`.error`) only when a group's confidence value cannot be
converted by `float(...)`. -/
def applyMergeGroups (r : Resolver) (g : KnowledgeGraph)
    (mergeGroups : List JObj) : Except Unit KnowledgeGraph := do
  let st ← mergeGroups.foldlM (processGroup r g) (([], []) :
    List (String × Nat) × AList String)
  let (votes, parent) := st
  let clusters := (buildClusters parent).map (fun c => c.2)
  return mergeClusters r g clusters votes

/-- The shared-id set of `_build_pair_signal`: 1-hop neighbors of both
candidates, each side's set first excluding the other candidate. -/
def sharedNeighborIds (g : KnowledgeGraph) (left right : Entity) :
    List String :=
  ((g.neighborIds left.entity_id).filter
      (fun x => x ≠ right.entity_id)).filter
    (fun x => x ∈ (g.neighborIds right.entity_id).filter
      (fun y => y ≠ left.entity_id))

/-- `_build_pair_signal`'s shared-neighbor component: shared existing
1-hop neighbors (each side's neighbor set first excludes the other
candidate), annotated with the relation types linking the neighbor to
each side. -/
def sharedNeighborSignals (g : KnowledgeGraph) (left right : Entity) :
    List SharedNeighbor :=
  (sharedNeighborIds g left right).filterMap (fun nid =>
    (g.get_entity nid).map (fun neighbor =>
      { neighbor_name := neighbor.name
        left_relations :=
          ((g.get_relationships_for_entity left.entity_id).filter
            (fun rel => rel.source_entity_id = nid ||
              rel.target_entity_id = nid)).map
            (fun rel => rel.relationship_type)
        right_relations :=
          ((g.get_relationships_for_entity right.entity_id).filter
            (fun rel => rel.source_entity_id = nid ||
              rel.target_entity_id = nid)).map
            (fun rel => rel.relationship_type) }))

/-- `_build_pair_signal`'s role-bucket component, with Python truthiness:
the signal fires only when the left bucket is present, non-empty as a
string, and equal to the right bucket. -/
def sameRoleBucketSignal (cfg : EntityResolutionConfig)
    (left right : Entity) : Option String :=
  match roleBucket cfg left with
  | some b =>
      if b ≠ "" && roleBucket cfg right = some b then some b else none
  | none => none

/-- `_build_pair_signal`'s co-occurrence component: the sorted
intersection of the two entities' source chunks (empty when either list
is empty, matching the source's truthiness guard). -/
def coOccurringChunks (left right : Entity) : List String :=
  sortStrings (left.source_chunks.filter
    (fun c => c ∈ right.source_chunks)).dedup

/-- `_build_pair_signal`: the evidence bundle for a candidate pair, or
`none` when no component fired. -/
def buildPairSignal (cfg : EntityResolutionConfig) (g : KnowledgeGraph)
    (left right : Entity) : Option PairSignal :=
  let shared := sharedNeighborSignals g left right
  let direct := sortStrings (directRelTypes g left.entity_id right.entity_id)
  let bucket := sameRoleBucketSignal cfg left right
  let chunks := coOccurringChunks left right
  let hasSignal :=
    !shared.isEmpty || !direct.isEmpty || bucket.isSome || !chunks.isEmpty
  if hasSignal then
    some { left_id := left.entity_id, right_id := right.entity_id,
           shared_neighbors := shared, direct_relations := direct,
           same_role_bucket := bucket, co_occurring_chunks := chunks }
  else none

/-- `_collect_merge_signals`: evidence for every unordered pair of batch
entities, in batch order, with evidence-free pairs omitted. -/
def collectMergeSignals (cfg : EntityResolutionConfig)
    (g : KnowledgeGraph) : List Entity → List PairSignal
  | [] => []
  | left :: rest =>
      rest.filterMap (fun right => buildPairSignal cfg g left right) ++
        collectMergeSignals cfg g rest

/-- The collection phase of `_merge_explicit_alias_relationships`: all
(source, target) pairs of relationships whose type upper-cases to
ALIAS_OF or SAME_AS and whose endpoints are both present and
person-like, in relationship order. -/
def collectAliasEdges (cfg : EntityResolutionConfig) (g : KnowledgeGraph) :
    List (String × String) :=
  g.relationships.filterMap (fun rel =>
    if pyUpper rel.relationship_type = "ALIAS_OF" ||
       pyUpper rel.relationship_type = "SAME_AS" then
      match g.get_entity rel.source_entity_id,
            g.get_entity rel.target_entity_id with
      | some source, some target =>
          if isPersonLike cfg source && isPersonLike cfg target then
            some (source.entity_id, target.entity_id)
          else none
      | _, _ => none
    else none)

/-- The merge phase of `_merge_explicit_alias_relationships`: process one
collected pair against the current graph — skip it if either endpoint is
gone, otherwise merge under the zero-votes composite-score canonical. -/
def processAliasEdge (cfg : EntityResolutionConfig) (g : KnowledgeGraph)
    (edge : String × String) : KnowledgeGraph :=
  let (leftId, rightId) := edge
  match g.get_entity leftId, g.get_entity rightId with
  | some _, some _ =>
      match selectCanonicalId cfg g [leftId, rightId] [] with
      | some canonicalId =>
          -- `if not canonical_id: continue` — the empty-string id is
          -- falsy in Python
          if canonicalId = "" then g
          else
            let duplicateId := if canonicalId = leftId then rightId else leftId
            (g.merge_entities canonicalId duplicateId).1
      | none => g
  | _, _ => g

/-- `_merge_explicit_alias_relationships`: collect the alias-typed edges
from the unmutated graph, then merge them pair by pair. -/
def mergeExplicitAliasRelationships (cfg : EntityResolutionConfig)
    (g : KnowledgeGraph) : KnowledgeGraph :=
  (collectAliasEdges cfg g).foldl (processAliasEdge cfg) g

/-- The LLM capability: the outcome of the n-th `chat_json` call of one
`resolve` invocation — either a transport error or a parsed JSON
object. -/
abbrev LLMOracle := Nat → Except Unit JObj

/-- The response handling of `_resolve_batch`: a transport error yields no
groups; a missing or non-list `merge_groups` yields no groups; non-dict
entries are dropped. -/
def parseBatchResponse (response : Except Unit JObj) : List JObj :=
  match response with
  | .error _ => []
  | .ok obj =>
      match jGetD obj "merge_groups" (.jarr []) with
      | .jarr groups =>
          groups.filterMap (fun v =>
            match v with
            | .jobj fields => some fields
            | _ => none)
      | _ => []

/-- Split a list into slices of at most `n` (the `range(0, n, step)`
slicing loop), by structural recursion on a fuel bound — the list length
always suffices, since each step drops at least one element. -/
def chunkListAux {α : Type} (n : Nat) : Nat → List α → List (List α)
  | _, [] => []
  | 0, _ :: _ => []
  | fuel + 1, x :: xs =>
      if n = 0 then []
      else (x :: xs).take n :: chunkListAux n fuel ((x :: xs).drop n)

/-- Split the person-like entities into batches of at most
`max_entities_per_pass`. -/
def chunkList {α : Type} (n : Nat) (l : List α) : List (List α) :=
  chunkListAux n l.length l

/-- The batch loop of `resolve`: one `chat_json` call per batch (absorbed
on failure), then `_apply_merge_groups`; an exception escaping
`_apply_merge_groups` aborts the remaining batches.  Also counts the LLM
calls made. -/
def runBatches (r : Resolver) (llm : LLMOracle) :
    KnowledgeGraph → Nat → List (List Entity) →
      Except Unit (KnowledgeGraph × Nat)
  | g, calls, [] => .ok (g, calls)
  | g, calls, _batch :: rest => do
      let groups := parseBatchResponse (llm calls)
      let g' ← applyMergeGroups r g groups
      runBatches r llm g' (calls + 1) rest

/-- `resolve(graph)`: explicit alias-relation pass, then — when at least
two person-like entities remain — LLM-assisted batched clustering.
Returns the final graph and the number of LLM calls made, or `.error`
when an exception escapes to the caller. -/
def resolve (r : Resolver) (llm : LLMOracle) (g : KnowledgeGraph) :
    Except Unit (KnowledgeGraph × Nat) :=
  let g1 := mergeExplicitAliasRelationships r.config g
  let personLike := g1.entities.filter (isPersonLike r.config)
  if personLike.length < 2 then .ok (g1, 0)
  else runBatches r llm g1 0 (chunkList r.max_entities_per_pass personLike)

end Resolver

/-! ## Concrete fixtures used by witnesses and counterexamples -/

/-- Build a relationship record concisely. -/
def mkRel (rid src tgt ty : String) : Relationship :=
  { relationship_id := rid, source_entity_id := src, target_entity_id := tgt,
    relationship_type := ty, description := "" }

/-- Build a person entity record concisely. -/
def mkPerson (eid nm : String) : Entity :=
  { entity_id := eid, name := nm, entity_type := "PERSON", description := "" }

/-- Build a well-formed LLM merge group (as a dict). -/
def mkGroupObj (cid : String) (dups : List String) (conf : Rat) : JObj :=
  [("canonical_entity_id", .jstr cid),
   ("duplicate_entity_ids", .jarr (dups.map .jstr)),
   ("confidence", .jnum conf),
   ("reason", .jstr "same person")]

/-- Build a well-formed LLM merge group (as a JSON value). -/
def mkGroup (cid : String) (dups : List String) (conf : Rat) : JValue :=
  .jobj (mkGroupObj cid dups conf)

/-- An LLM oracle that always fails with a transport error. -/
def llmDown : Resolver.LLMOracle := fun _ => .error ()

/-- A constant LLM oracle. -/
def llmConst (resp : JObj) : Resolver.LLMOracle := fun _ => .ok resp

/-- A one-person graph (below the two-person-like threshold). -/
def gOnePerson : KnowledgeGraph :=
  { entities := [mkPerson "a" "Alice"], relationships := [] }

/-- Two unrelated person entities. -/
def gTwoPersons : KnowledgeGraph :=
  { entities := [mkPerson "a" "Alice", mkPerson "b" "Bob"],
    relationships := [] }

/-- Two persons joined by a direct MARRIED_TO relationship. -/
def gMarriedPair : KnowledgeGraph :=
  { entities := [mkPerson "a" "Alice", mkPerson "b" "Bob"],
    relationships := [mkRel "r1" "a" "b" "MARRIED_TO"] }

open Resolver KnowledgeGraph

/-! ## General helper lemmas -/

/-- Pointwise-equal step functions fold alike. -/
theorem foldl_ext {α β : Type} (f g : α → β → α) (h : ∀ a b, f a b = g a b) :
    ∀ (l : List β) (acc : α), l.foldl f acc = l.foldl g acc := by
  intro l
  induction l with
  | nil => intro acc; rfl
  | cons x xs ih =>
      intro acc
      simp only [List.foldl_cons, h]
      exact ih _

/-! ## C10 — symmetry of direct-relation lookup -/

/-- The direct-relation condition of `_get_direct_relation_types` is
symmetric in the two ids, so the whole fold is. -/
theorem directRelTypes_comm (g : KnowledgeGraph) (l r : String) :
    directRelTypes g l r = directRelTypes g r l := by
  unfold directRelTypes
  refine foldl_ext _ _ (fun acc rel => ?_) g.relationships []
  rw [Bool.or_comm]

/-- C10: `_get_direct_relation_types` is symmetric in its two entity-id
arguments — on every graph and every pair of ids it returns the same set
of upper-cased relation types when the arguments are swapped — and hence
`_is_non_mergeable_pair` blocks (canonical, duplicate) iff it blocks
(duplicate, canonical). -/
theorem direct_relation_types_symmetric :
    ∀ (cfg : EntityResolutionConfig) (g : KnowledgeGraph) (l r : String),
      directRelTypes g l r = directRelTypes g r l ∧
      isNonMergeablePair cfg g l r = isNonMergeablePair cfg g r l := by
  intro cfg g l r
  refine ⟨directRelTypes_comm g l r, ?_⟩
  unfold isNonMergeablePair
  rw [directRelTypes_comm g l r]

/-! ## C9 — fewer than two person-like entities: no LLM pass -/

/-- C9: when, after the explicit alias-relation pass, fewer than two
entities are person-like, `resolve` returns at once: zero LLM calls and
no change beyond the alias pass. -/
theorem resolve_stops_below_two_person_like :
    ∀ (r : Resolver) (llm : LLMOracle) (g : KnowledgeGraph),
      ((mergeExplicitAliasRelationships r.config g).entities.filter
          (isPersonLike r.config)).length < 2 →
      resolve r llm g = .ok (mergeExplicitAliasRelationships r.config g, 0) := by
  intro r llm g h
  unfold resolve
  simp only [if_pos h]

/-- Witness for C9 at a one-person graph. -/
theorem resolve_stops_below_two_person_like_witness :
    resolve {} llmDown gOnePerson =
      .ok (mergeExplicitAliasRelationships ({} : Resolver).config gOnePerson, 0) :=
  resolve_stops_below_two_person_like {} llmDown gOnePerson (by decide)

/-! ## C1 — a confidence value `float(...)` cannot convert escapes -/

/-- An LLM response whose single group is well-formed except that its
confidence is JSON `null` (`float(None)` raises `TypeError`). -/
def respNullConfidence : JObj :=
  [("merge_groups", .jarr [
    .jobj [("canonical_entity_id", .jstr "a"),
           ("duplicate_entity_ids", .jarr [.jstr "b"]),
           ("confidence", .jnull)]])]

/-- C1 failing input: on a graph with two person entities and a response
whose group carries `confidence: null`, `_apply_merge_groups` evaluates
`float(None)` — which raises — and the exception escapes `resolve` to the
caller, contradicting the spec's "nothing in this core is fatal"
contract. -/
theorem resolve_raises_on_null_confidence :
    (resolve {} (llmConst respNullConfidence) gTwoPersons).toOption = none ∧
    gTwoPersons.entities.length = 2 := by
  exact ⟨by decide, by decide⟩

/-! ## C5 — the confidence gate -/

/-- A group whose converted confidence is strictly below the threshold is
skipped before any vote or union. -/
theorem processGroup_skips_below_threshold (r : Resolver) (g : KnowledgeGraph)
    (st : List (String × Nat) × AList String) (group : JObj) (q : Rat)
    (hq : pyFloat (jGetD group "confidence" (.jnum 0)) = .ok q)
    (hlt : q < r.min_confidence) :
    processGroup r g st group = .ok st := by
  obtain ⟨votes, parent⟩ := st
  unfold processGroup
  rw [hq]
  simp only [bind, Except.bind, if_pos hlt]
  rfl

/-- Dropping a fold step that fixes every state leaves a monadic fold
unchanged. -/
theorem foldlM_middle_skip {σ α : Type}
    (f : σ → α → Except Unit σ) (x : α)
    (hmid : ∀ st, f st x = .ok st) (pre post : List α) (init : σ) :
    (pre ++ x :: post).foldlM f init = (pre ++ post).foldlM f init := by
  rw [List.foldlM_append, List.foldlM_append]
  refine congrArg _ (funext fun st => ?_)
  rw [List.foldlM_cons, hmid st]
  exact pure_bind st _

/-- The exact at-threshold response: one group at confidence exactly
0.75. -/
def respAtThreshold : JObj :=
  [("merge_groups", .jarr [mkGroup "a" ["b"] (mkRat 3 4)])]

/-- C5: every group with converted confidence strictly below
`min_confidence` is ignored entirely — removing it from the response
changes nothing about `_apply_merge_groups` — while a group at exactly
`min_confidence` is not gated: at the default threshold 0.75 it still
merges its pair. -/
theorem low_confidence_group_ignored_entirely :
    (∀ (r : Resolver) (g : KnowledgeGraph) (pre post : List JObj)
       (group : JObj) (q : Rat),
       pyFloat (jGetD group "confidence" (.jnum 0)) = .ok q →
       q < r.min_confidence →
       applyMergeGroups r g (pre ++ group :: post) =
         applyMergeGroups r g (pre ++ post)) ∧
    (resolve {} (llmConst respAtThreshold) gTwoPersons).toOption.map
        (fun p => p.1.entities.map (fun e => e.entity_id)) = some ["a"] := by
  constructor
  · intro r g pre post group q hq hlt
    unfold applyMergeGroups
    rw [foldlM_middle_skip _ _
      (fun st => processGroup_skips_below_threshold r g st group q hq hlt)]
  · decide

/-- Witness for C5's gate at a concrete below-threshold group. -/
theorem low_confidence_group_ignored_entirely_witness :
    applyMergeGroups {} gTwoPersons
        ([] ++ mkGroupObj "a" ["b"] (mkRat 1 2) :: []) =
      applyMergeGroups {} gTwoPersons ([] ++ []) :=
  low_confidence_group_ignored_entirely.1 {} gTwoPersons [] []
    (mkGroupObj "a" ["b"] (mkRat 1 2)) (mkRat 1 2) rfl (by decide)

/-! ## C3 — rejection of non-mergeable duplicates -/

/-- A direct relation type in the configured non-merge set makes the pair
non-mergeable. -/
theorem isNonMergeablePair_of_mem (cfg : EntityResolutionConfig)
    (g : KnowledgeGraph) (cid d t : String)
    (hdir : t ∈ directRelTypes g cid d)
    (hcfg : t ∈ cfg.non_merge_relation_types) :
    isNonMergeablePair cfg g cid d = true := by
  unfold isNonMergeablePair
  exact List.any_eq_true.mpr ⟨t, hdir, decide_eq_true hcfg⟩

/-- A blocked duplicate id leaves the union-find parent map untouched. -/
theorem processDuplicate_skips_nonmergeable (cfg : EntityResolutionConfig)
    (g : KnowledgeGraph) (cid : String) (parent : AList String) (d : String)
    (hblock : isNonMergeablePair cfg g cid d = true) :
    processDuplicate cfg g cid parent (.jstr d) = parent := by
  simp only [processDuplicate]
  cases hget : g.get_entity d with
  | none => simp [hget]
  | some dup =>
      simp only [hget]
      by_cases hp : isPersonLike cfg dup
      · simp [hp, hblock]
      · simp [hp]

/-- Dropping a pure fold step that fixes every state leaves the fold
unchanged. -/
theorem foldl_middle_skip {σ α : Type} (f : σ → α → σ) (x : α)
    (hmid : ∀ a, f a x = a) (pre post : List α) (init : σ) :
    (pre ++ x :: post).foldl f init = (pre ++ post).foldl f init := by
  rw [List.foldl_append, List.foldl_append, List.foldl_cons, hmid]

/-- C3: the default non-merge relation set is exactly the six documented
types, and during duplicate processing a duplicate with some direct
relation to the canonical (either direction, upper-cased) in the
configured set is silently rejected: removing it from the group's
duplicate list changes nothing, so the other duplicates are processed
exactly as before. -/
theorem nonmergeable_duplicate_rejected :
    (default_config.non_merge_relation_types =
      ["MARRIED_TO", "PARENT_OF", "CHILD_OF", "SIBLING_OF",
       "FRIEND_OF", "KNOWS"]) ∧
    (∀ (cfg : EntityResolutionConfig) (g : KnowledgeGraph)
       (cid t d : String) (parent : AList String) (pre post : List JValue),
       t ∈ directRelTypes g cid d →
       t ∈ cfg.non_merge_relation_types →
       (pre ++ JValue.jstr d :: post).foldl (processDuplicate cfg g cid) parent
         = (pre ++ post).foldl (processDuplicate cfg g cid) parent) := by
  constructor
  · rfl
  · intro cfg g cid t d parent pre post hdir hcfg
    exact foldl_middle_skip _ _
      (fun a => processDuplicate_skips_nonmergeable cfg g cid a d
        (isNonMergeablePair_of_mem cfg g cid d t hdir hcfg)) pre post parent

/-- Witness for C3 on the married pair. -/
theorem nonmergeable_duplicate_rejected_witness :
    ([] ++ JValue.jstr "b" :: []).foldl
        (processDuplicate default_config gMarriedPair "a") []
      = ([] ++ []).foldl (processDuplicate default_config gMarriedPair "a") [] :=
  nonmergeable_duplicate_rejected.2 default_config gMarriedPair "a"
    "MARRIED_TO" "b" [] [] [] (by decide) (by decide)

/-! ## C2 — MARRIED_TO pairs and merge-group application -/

/-- A single-group response whose canonical/duplicate pair carries a
direct MARRIED_TO relation contributes nothing: the duplicate is blocked,
no cluster forms, and the graph is returned unchanged — at every
confidence. -/
theorem married_direct_pair_group_is_noop :
    ∀ (r : Resolver) (g : KnowledgeGraph) (a b : String) (conf : Rat),
      "MARRIED_TO" ∈ r.config.non_merge_relation_types →
      "MARRIED_TO" ∈ directRelTypes g a b →
      applyMergeGroups r g [mkGroupObj a [b] conf] = .ok g := by
  intro r g a b conf hm hd
  have hblock : isNonMergeablePair r.config g a b = true :=
    isNonMergeablePair_of_mem r.config g a b "MARRIED_TO" hd hm
  have hstep : ∃ votes, processGroup r g ([], []) (mkGroupObj a [b] conf)
      = .ok (votes, ([] : AList String)) := by
    simp only [processGroup]
    have hconf : jGetD (mkGroupObj a [b] conf) "confidence" (.jnum 0) =
        .jnum conf := rfl
    have hcan : jGetD (mkGroupObj a [b] conf) "canonical_entity_id" .jnull =
        .jstr a := rfl
    have hdup : jGetD (mkGroupObj a [b] conf) "duplicate_entity_ids"
        (.jarr []) = .jarr [.jstr b] := rfl
    simp only [hconf, hcan, hdup, pyFloat, bind, Except.bind]
    by_cases hc : conf < r.min_confidence
    · rw [if_pos hc]; exact ⟨[], rfl⟩
    · rw [if_neg hc]
      cases hget : g.get_entity a with
      | none => exact ⟨[], rfl⟩
      | some canonical =>
          by_cases hp : isPersonLike r.config canonical
          · refine ⟨[(a, 1)], ?_⟩
            simp only [hp, not_true_eq_false, if_false, List.foldl_cons,
              List.foldl_nil,
              processDuplicate_skips_nonmergeable r.config g a [] b hblock]
            rfl
          · simp only [hp, not_false_eq_true, if_true]
            exact ⟨[], rfl⟩
  obtain ⟨votes, hstep⟩ := hstep
  unfold applyMergeGroups
  rw [List.foldlM_cons, hstep]
  rfl

/-- Witness for the amended C2 statement on a concrete married pair with a
high-confidence merge proposal. -/
theorem married_direct_pair_group_is_noop_witness :
    applyMergeGroups {} gMarriedPair [mkGroupObj "a" ["b"] (mkRat 99 100)] =
      .ok gMarriedPair :=
  married_direct_pair_group_is_noop {} gMarriedPair "a" "b" (mkRat 99 100)
    (by decide) (by decide)

/-- Ann and Cy are married; Ben is a third person. -/
def gChain : KnowledgeGraph :=
  { entities := [mkPerson "a" "Ann", mkPerson "b" "Ben", mkPerson "c" "Cy"],
    relationships := [mkRel "r1" "a" "c" "MARRIED_TO"] }

/-- The LLM proposes (canonical a, dup b) and (canonical b, dup c), never
pairing the married a and c directly. -/
def respChain : JObj :=
  [("merge_groups", .jarr [mkGroup "a" ["b"] (mkRat 95 100),
                           mkGroup "b" ["c"] (mkRat 95 100)])]

/-- C2 counterexample: the MARRIED_TO-connected pair (a, c) is merged by
`resolve` through the transitive union-find chain a–b–c even though no
group pairs a and c directly — after the call, c is gone and its name
resolves to a. -/
theorem married_pair_merged_via_transitive_chain :
    "MARRIED_TO" ∈ directRelTypes gChain "a" "c" ∧
    (resolve {} (llmConst respChain) gChain).toOption.map
        (fun p => (p.1.get_entity "c",
          (p.1.get_entity_by_name "Cy").map (fun e => e.entity_id)))
      = some (none, some "a") :=
  ⟨by decide, by decide⟩

/-! ## C6 — canonical selection within a cluster -/

theorem charListLt_irrefl : ∀ l : List Char, charListLt l l = false
  | [] => rfl
  | c :: cs => by simp [charListLt, charListLt_irrefl cs]

theorem charListLt_trans : ∀ (x y z : List Char),
    charListLt x y = true → charListLt y z = true → charListLt x z = true := by
  intro x
  induction x with
  | nil =>
      intro y z hxy hyz
      cases y with
      | nil => exact absurd hxy (by simp [charListLt])
      | cons b bs =>
          cases z with
          | nil => exact absurd hyz (by simp [charListLt])
          | cons c cs => simp [charListLt]
  | cons a as ih =>
      intro y z hxy hyz
      cases y with
      | nil => exact absurd hxy (by simp [charListLt])
      | cons b bs =>
          cases z with
          | nil => exact absurd hyz (by simp [charListLt])
          | cons c cs =>
              simp only [charListLt, Bool.or_eq_true, Bool.and_eq_true,
                decide_eq_true_eq] at hxy hyz ⊢
              rcases hxy with h1 | ⟨h1, h1r⟩
              · rcases hyz with h2 | ⟨h2, h2r⟩
                · exact Or.inl (Nat.lt_trans h1 h2)
                · exact Or.inl (h2 ▸ h1)
              · rcases hyz with h2 | ⟨h2, h2r⟩
                · exact Or.inl (h1 ▸ h2)
                · exact Or.inr ⟨h1.trans h2, ih bs cs h1r h2r⟩

theorem charListLt_connex : ∀ (x y : List Char),
    charListLt x y = false → charListLt y x = false → x = y := by
  intro x
  induction x with
  | nil =>
      intro y h1 _
      cases y with
      | nil => rfl
      | cons b bs => exact absurd h1 (by simp [charListLt])
  | cons a as ih =>
      intro y h1 h2
      cases y with
      | nil => exact absurd h2 (by simp [charListLt])
      | cons b bs =>
          simp only [charListLt, Bool.or_eq_false_iff, Bool.and_eq_false_iff,
            decide_eq_false_iff_not, decide_eq_true_eq] at h1 h2
          have hab : a.toNat = b.toNat := by omega
          have habc : a = b := Char.eq_of_val_eq (UInt32.ext hab)
          have htail : as = bs := by
            refine ih bs ?_ ?_
            · rcases h1.2 with h | h
              · exact absurd hab h
              · simpa using h
            · rcases h2.2 with h | h
              · exact absurd hab.symm h
              · simpa using h
          rw [habc, htail]

theorem strLt_trans {x y z : String} (h1 : strLt x y = true)
    (h2 : strLt y z = true) : strLt x z = true :=
  charListLt_trans x.data y.data z.data h1 h2

theorem strLt_connex {x y : String} (h1 : strLt x y = false)
    (h2 : strLt y x = false) : x = y := by
  have := charListLt_connex x.data y.data h1 h2
  cases x; cases y; exact congrArg String.mk this

theorem scoreLt_irrefl (x : Int × Int × Int × Int) : scoreLt x x = false := by
  obtain ⟨x1, x2, x3, x4⟩ := x
  simp [scoreLt]

theorem scoreLt_trans {x y z : Int × Int × Int × Int}
    (h1 : scoreLt x y = true) (h2 : scoreLt y z = true) :
    scoreLt x z = true := by
  obtain ⟨x1, x2, x3, x4⟩ := x
  obtain ⟨y1, y2, y3, y4⟩ := y
  obtain ⟨z1, z2, z3, z4⟩ := z
  simp only [scoreLt, Bool.or_eq_true, Bool.and_eq_true,
    decide_eq_true_eq] at h1 h2 ⊢
  omega

theorem scoreLt_connex {x y : Int × Int × Int × Int}
    (h1 : scoreLt x y = false) (h2 : scoreLt y x = false) : x = y := by
  obtain ⟨x1, x2, x3, x4⟩ := x
  obtain ⟨y1, y2, y3, y4⟩ := y
  simp only [scoreLt, Bool.or_eq_false_iff, Bool.and_eq_false_iff,
    decide_eq_false_iff_not, decide_eq_true_eq] at h1 h2
  simp only [Prod.mk.injEq]
  omega

theorem candLt_irrefl (x : (Int × Int × Int × Int) × String) :
    candLt x x = false := by
  obtain ⟨s, i⟩ := x
  simp [candLt, scoreLt_irrefl, strLt, charListLt_irrefl]

theorem candLt_trans {x y z : (Int × Int × Int × Int) × String}
    (h1 : candLt x y = true) (h2 : candLt y z = true) :
    candLt x z = true := by
  obtain ⟨sx, ix⟩ := x
  obtain ⟨sy, iy⟩ := y
  obtain ⟨sz, iz⟩ := z
  simp only [candLt, Bool.or_eq_true, Bool.and_eq_true,
    decide_eq_true_eq] at h1 h2 ⊢
  rcases h1 with h | ⟨he, hs⟩
  · rcases h2 with h2' | ⟨he2, _⟩
    · exact Or.inl (scoreLt_trans h h2')
    · exact Or.inl (he2 ▸ h)
  · rcases h2 with h2' | ⟨he2, hs2⟩
    · exact Or.inl (he ▸ h2')
    · exact Or.inr ⟨he.trans he2, strLt_trans hs hs2⟩

theorem candLt_connex {x y : (Int × Int × Int × Int) × String}
    (h1 : candLt x y = false) (h2 : candLt y x = false) : x = y := by
  obtain ⟨sx, ix⟩ := x
  obtain ⟨sy, iy⟩ := y
  simp only [candLt, Bool.or_eq_false_iff, Bool.and_eq_false_iff,
    decide_eq_false_iff_not, decide_eq_true_eq] at h1 h2
  have hs : sx = sy := scoreLt_connex h1.1 h2.1
  subst hs
  have hi : ix = iy := by
    refine strLt_connex ?_ ?_
    · rcases h1.2 with h | h
      · exact absurd rfl h
      · exact h
    · rcases h2.2 with h | h
      · exact absurd rfl h
      · exact h
  rw [hi]

/-- The fold in `_select_canonical_id` returns an element of the
candidate list that no candidate strictly exceeds in the (score, id)
lexicographic order. -/
theorem foldl_best_mem_and_max :
    ∀ (l : List ((Int × Int × Int × Int) × String))
      (best : (Int × Int × Int × Int) × String),
      (l.foldl (fun b x => if candLt b x then x else b) best) ∈ best :: l ∧
      ∀ z ∈ best :: l,
        candLt (l.foldl (fun b x => if candLt b x then x else b) best) z
          = false := by
  intro l
  induction l with
  | nil =>
      intro best
      refine ⟨List.mem_singleton.mpr rfl, ?_⟩
      intro z hz
      rw [List.mem_singleton] at hz
      subst hz
      exact candLt_irrefl _
  | cons x xs ih =>
      intro best
      rw [List.foldl_cons]
      obtain ⟨ihmem, ihmax⟩ := ih (if candLt best x then x else best)
      constructor
      · by_cases hc : candLt best x = true
        · rw [if_pos hc] at ihmem ⊢
          rcases List.mem_cons.mp ihmem with h | h
          · exact List.mem_cons.mpr (Or.inr (List.mem_cons.mpr (Or.inl h)))
          · exact List.mem_cons.mpr (Or.inr (List.mem_cons.mpr (Or.inr h)))
        · rw [if_neg hc] at ihmem ⊢
          rcases List.mem_cons.mp ihmem with h | h
          · exact List.mem_cons.mpr (Or.inl h)
          · exact List.mem_cons.mpr (Or.inr (List.mem_cons.mpr (Or.inr h)))
      · intro z hz
        rcases List.mem_cons.mp hz with rfl | hz'
        · -- z is the incoming best
          by_cases hc : candLt z x = true
          · rw [if_pos hc] at ihmax ⊢
            have hrx := ihmax x (List.mem_cons_self _ _)
            cases hres : candLt
                (xs.foldl (fun b x => if candLt b x then x else b) x) z with
            | false => rfl
            | true =>
                have := candLt_trans hres hc
                rw [hrx] at this
                exact absurd this (by simp)
          · rw [if_neg hc] at ihmax ⊢
            exact ihmax z (List.mem_cons_self _ _)
        · rcases List.mem_cons.mp hz' with rfl | hz''
          · -- z is the new element x
            by_cases hc : candLt best z = true
            · rw [if_pos hc] at ihmax ⊢
              exact ihmax z (List.mem_cons_self _ _)
            · rw [if_neg hc] at ihmax ⊢
              have hrb := ihmax best (List.mem_cons_self _ _)
              cases hres : candLt
                  (xs.foldl (fun b x => if candLt b x then x else b) best) z with
              | false => rfl
              | true =>
                  cases hzb : candLt z best with
                  | true =>
                      have := candLt_trans hres hzb
                      rw [hrb] at this
                      exact absurd this (by simp)
                  | false =>
                      have hbz : best = z := candLt_connex (by simpa using hc) hzb
                      rw [← hbz] at hres
                      rw [hrb] at hres
                      exact absurd hres (by simp)
            -- done
          · by_cases hc : candLt best x = true
            · rw [if_pos hc] at ihmax ⊢
              exact ihmax z (List.mem_cons.mpr (Or.inr hz''))
            · rw [if_neg hc] at ihmax ⊢
              exact ihmax z (List.mem_cons.mpr (Or.inr hz''))

/-- C6 amended: `_select_canonical_id` picks, among the still-present
candidate ids, the maximum of the (composite score, entity id) pairs in
lexicographic order — so full-score ties are broken towards the
lexicographically greatest id, not the first-seen one. -/
theorem canonical_selection_lex_argmax :
    ∀ (cfg : EntityResolutionConfig) (g : KnowledgeGraph)
      (ids : List String) (votes : List (String × Nat))
      (x : String) (ex : Entity),
      x ∈ ids → g.get_entity x = some ex →
      ∃ k ek, selectCanonicalId cfg g ids votes = some k ∧ k ∈ ids ∧
        g.get_entity k = some ek ∧
        ∀ y ey, y ∈ ids → g.get_entity y = some ey →
          candLt (entityScore cfg g votes k ek, k)
            (entityScore cfg g votes y ey, y) = false := by
  intro cfg g ids votes x ex hx hgx
  unfold selectCanonicalId
  have hxc : (entityScore cfg g votes x ex, x) ∈
      ids.filterMap (fun eid => (g.get_entity eid).map
        (fun e => (entityScore cfg g votes eid e, eid))) :=
    List.mem_filterMap.mpr ⟨x, hx, by rw [hgx]; rfl⟩
  cases hc : ids.filterMap (fun eid => (g.get_entity eid).map
      (fun e => (entityScore cfg g votes eid e, eid))) with
  | nil => rw [hc] at hxc; cases hxc
  | cons c rest =>
      obtain ⟨hmem, hmax⟩ := foldl_best_mem_and_max rest c
      have hresc : (rest.foldl (fun b x => if candLt b x then x else b) c) ∈
          ids.filterMap (fun eid => (g.get_entity eid).map
            (fun e => (entityScore cfg g votes eid e, eid))) := by
        rw [hc]; exact hmem
      obtain ⟨k0, hk0mem, hk0⟩ := List.mem_filterMap.mp hresc
      cases hgk : g.get_entity k0 with
      | none => rw [hgk] at hk0; cases hk0
      | some ek =>
          rw [hgk] at hk0
          have hres : (rest.foldl (fun b x => if candLt b x then x else b) c)
              = (entityScore cfg g votes k0 ek, k0) :=
            (Option.some.injEq _ _ ▸ hk0).symm
          refine ⟨k0, ek, ?_, hk0mem, hgk, ?_⟩
          · simp only [hc]
            rw [hres]
          · intro y ey hy hgy
            have hyc : (entityScore cfg g votes y ey, y) ∈
                ids.filterMap (fun eid => (g.get_entity eid).map
                  (fun e => (entityScore cfg g votes eid e, eid))) :=
              List.mem_filterMap.mpr ⟨y, hy, by rw [hgy]; rfl⟩
            have := hmax _ (by rw [← hc]; exact hyc)
            rw [hres] at this
            exact this

/-- Two persons with fully equal composite scores: first-seen order of
the ids is `"a"`, yet the id `"b"` is selected. -/
def gTie : KnowledgeGraph :=
  { entities := [mkPerson "a" "Xena", mkPerson "b" "Yan"],
    relationships := [] }

/-- C6 counterexample: both candidates are present with equal composite
scores, the first-seen candidate is `"a"` (ids are scanned in the order
`["a", "b"]`), yet `_select_canonical_id` returns `"b"` — ties on the
full score are broken by the greatest entity id, not by first-seen
order. -/
theorem canonical_tie_not_broken_by_first_seen :
    entityScore default_config gTie [] "a" (mkPerson "a" "Xena") =
      entityScore default_config gTie [] "b" (mkPerson "b" "Yan") ∧
    gTie.get_entity "a" = some (mkPerson "a" "Xena") ∧
    gTie.get_entity "b" = some (mkPerson "b" "Yan") ∧
    selectCanonicalId default_config gTie ["a", "b"] [] = some "b" := by
  refine ⟨by decide, by decide, by decide, by decide⟩

/-- Witness for the amended C6 statement at the tie fixture. -/
theorem canonical_selection_lex_argmax_witness :
    ∃ k ek, selectCanonicalId default_config gTie ["a", "b"] [] = some k ∧
      k ∈ ["a", "b"] ∧ gTie.get_entity k = some ek ∧
      ∀ y ey, y ∈ ["a", "b"] → gTie.get_entity y = some ey →
        candLt (entityScore default_config gTie [] k ek, k)
          (entityScore default_config gTie [] y ey, y) = false :=
  canonical_selection_lex_argmax default_config gTie ["a", "b"] []
    "a" (mkPerson "a" "Xena") (by decide) (by decide)

/-! ## C8 — signal mining: omission iff no evidence -/

theorem insertSorted_ne_nil (x : String) : ∀ l : List String,
    insertSorted x l ≠ []
  | [] => by simp [insertSorted]
  | y :: ys => by
      unfold insertSorted
      by_cases h : strLt y x = true
      · simp [h]
      · simp [h]

theorem sortStrings_eq_nil_iff (l : List String) :
    sortStrings l = [] ↔ l = [] := by
  cases l with
  | nil => simp [sortStrings]
  | cons x xs =>
      simp only [sortStrings, List.foldr_cons]
      exact ⟨fun h => absurd h (insertSorted_ne_nil x _), fun h => by cases h⟩

/-- Every 1-hop neighbor id is an endpoint of some relationship. -/
theorem mem_neighborIds_endpoint (g : KnowledgeGraph) (eid x : String)
    (hx : x ∈ g.neighborIds eid) :
    ∃ rel ∈ g.relationships,
      x = rel.source_entity_id ∨ x = rel.target_entity_id := by
  unfold KnowledgeGraph.neighborIds at hx
  rw [List.mem_dedup, List.mem_filter] at hx
  obtain ⟨rel, hrel, hmap⟩ := List.mem_filterMap.mp hx.1
  refine ⟨rel, hrel, ?_⟩
  by_cases hs : rel.source_entity_id = eid
  · simp only [hs, if_pos rfl] at hmap
    exact Or.inr (Option.some.inj hmap).symm
  · rw [if_neg hs] at hmap
    by_cases ht : rel.target_entity_id = eid
    · rw [if_pos ht] at hmap
      exact Or.inl (Option.some.inj hmap).symm
    · rw [if_neg ht] at hmap
      cases hmap

/-- Under the documented invariant that every relationship's endpoints
are present, the shared-neighbor annotations are empty exactly when the
shared-id set is. -/
theorem sharedNeighborSignals_eq_nil_iff (g : KnowledgeGraph)
    (l r : Entity)
    (hwf : ∀ rel ∈ g.relationships,
      (g.get_entity rel.source_entity_id).isSome ∧
      (g.get_entity rel.target_entity_id).isSome) :
    sharedNeighborSignals g l r = [] ↔ sharedNeighborIds g l r = [] := by
  unfold sharedNeighborSignals
  cases hids : sharedNeighborIds g l r with
  | nil => simp
  | cons n ns =>
      simp only [List.filterMap_cons]
      have hn : n ∈ g.neighborIds l.entity_id := by
        have : n ∈ sharedNeighborIds g l r := hids ▸ List.mem_cons_self n ns
        unfold sharedNeighborIds at this
        exact (List.mem_filter.mp (List.mem_filter.mp this).1).1
      obtain ⟨rel, hrel, hend⟩ := mem_neighborIds_endpoint g l.entity_id n hn
      have hpres : (g.get_entity n).isSome := by
        rcases hend with h | h
        · exact h ▸ (hwf rel hrel).1
        · exact h ▸ (hwf rel hrel).2
      cases hget : g.get_entity n with
      | none => rw [hget] at hpres; cases hpres
      | some ne' => simp [hget]

/-- Boolean emptiness agrees with list emptiness. -/
theorem isEmpty_false_iff {α : Type} (l : List α) :
    l.isEmpty = false ↔ l ≠ [] := by
  cases l <;> simp

/-- Boolean emptiness agrees with list emptiness (positive form). -/
theorem isEmpty_true_iff {α : Type} (l : List α) :
    l.isEmpty = true ↔ l = [] := by
  cases l <;> simp

/-- The role-bucket signal is absent exactly when no non-empty bucket
name is the first-matching bucket of both entities. -/
theorem sameRoleBucketSignal_eq_none_iff (cfg : EntityResolutionConfig)
    (l r : Entity) :
    sameRoleBucketSignal cfg l r = none ↔
      ¬∃ b, b ≠ "" ∧ roleBucket cfg l = some b ∧ roleBucket cfg r = some b := by
  unfold sameRoleBucketSignal
  cases hl : roleBucket cfg l with
  | none =>
      simp only [true_iff]
      rintro ⟨b, _, hb, _⟩
      cases hb
  | some s =>
      show (if (decide (s ≠ "") && decide (roleBucket cfg r = some s)) = true
          then some s else none) = none ↔
        ¬∃ b, b ≠ "" ∧ some s = some b ∧ roleBucket cfg r = some b
      by_cases hcond :
          (decide (s ≠ "") && decide (roleBucket cfg r = some s)) = true
      · rw [if_pos hcond]
        simp only [Bool.and_eq_true, decide_eq_true_eq] at hcond
        constructor
        · intro h; cases h
        · intro h; exact absurd ⟨s, hcond.1, rfl, hcond.2⟩ h
      · rw [if_neg hcond]
        simp only [Bool.and_eq_true, decide_eq_true_eq, not_and] at hcond
        simp only [true_iff]
        rintro ⟨b, hb1, hb2, hb3⟩
        obtain rfl := Option.some.inj hb2
        exact hcond hb1 hb3

/-- The co-occurrence component is empty exactly when the raw chunk
intersection is. -/
theorem coOccurringChunks_eq_nil_iff (l r : Entity) :
    coOccurringChunks l r = [] ↔
      l.source_chunks.filter (fun c => c ∈ r.source_chunks) = [] := by
  unfold coOccurringChunks
  rw [sortStrings_eq_nil_iff, List.dedup_eq_nil]

/-- C8 amended: on graphs satisfying the documented endpoint-presence
invariant, `_build_pair_signal` omits a pair exactly when the pair has no
shared 1-hop neighbors (excluding each other), no direct relation types,
no common *first-matching* role bucket with a truthy name, and no
co-occurring source chunks; evidence collection itself is read-only by
construction (it returns signals without producing a graph). -/
theorem pair_signal_omitted_iff_no_evidence :
    ∀ (cfg : EntityResolutionConfig) (g : KnowledgeGraph) (l r : Entity),
      (∀ rel ∈ g.relationships,
        (g.get_entity rel.source_entity_id).isSome ∧
        (g.get_entity rel.target_entity_id).isSome) →
      (buildPairSignal cfg g l r = none ↔
        (sharedNeighborIds g l r = [] ∧
         directRelTypes g l.entity_id r.entity_id = [] ∧
         (¬∃ b, b ≠ "" ∧ roleBucket cfg l = some b ∧ roleBucket cfg r = some b) ∧
         l.source_chunks.filter (fun c => c ∈ r.source_chunks) = [])) := by
  intro cfg g l r hwf
  unfold buildPairSignal
  by_cases hsig : (!(sharedNeighborSignals g l r).isEmpty ||
      !(sortStrings (directRelTypes g l.entity_id r.entity_id)).isEmpty ||
      (sameRoleBucketSignal cfg l r).isSome ||
      !(coOccurringChunks l r).isEmpty) = true
  · rw [if_pos hsig]
    constructor
    · intro h; cases h
    · rintro ⟨h1, h2, h3, h4⟩
      exfalso
      rcases Bool.or_eq_true _ _ |>.mp hsig with hs3 | hc
      · rcases Bool.or_eq_true _ _ |>.mp hs3 with hs2 | hb
        · rcases Bool.or_eq_true _ _ |>.mp hs2 with hs | hd
          · rw [Bool.not_eq_true'] at hs
            exact (isEmpty_false_iff _).mp hs
              ((sharedNeighborSignals_eq_nil_iff g l r hwf).mpr h1)
          · rw [Bool.not_eq_true'] at hd
            exact (isEmpty_false_iff _).mp hd ((sortStrings_eq_nil_iff _).mpr h2)
        · obtain ⟨b, hb'⟩ := Option.isSome_iff_exists.mp hb
          rw [(sameRoleBucketSignal_eq_none_iff cfg l r).mpr h3] at hb'
          cases hb'
      · rw [Bool.not_eq_true'] at hc
        exact (isEmpty_false_iff _).mp hc
          ((coOccurringChunks_eq_nil_iff l r).mpr h4)
  · rw [if_neg hsig]
    simp only [true_iff]
    rw [Bool.not_eq_true] at hsig
    simp only [Bool.or_eq_false_iff] at hsig
    obtain ⟨⟨⟨hs, hd⟩, hb⟩, hc⟩ := hsig
    rw [Bool.not_eq_false'] at hs hd hc
    refine ⟨(sharedNeighborSignals_eq_nil_iff g l r hwf).mp
        ((isEmpty_true_iff _).mp hs), ?_, ?_, ?_⟩
    · exact (sortStrings_eq_nil_iff _).mp ((isEmpty_true_iff _).mp hd)
    · refine (sameRoleBucketSignal_eq_none_iff cfg l r).mp ?_
      cases hsb : sameRoleBucketSignal cfg l r with
      | none => rfl
      | some b => rw [hsb] at hb; cases hb
    · exact (coOccurringChunks_eq_nil_iff l r).mp ((isEmpty_true_iff _).mp hc)

/-- A configuration with two buckets: `b1` matches "alpha", `b2` matches
"beta". -/
def cfgTwoBuckets : EntityResolutionConfig :=
  { person_like_keywords := [], generic_role_terms := [],
    role_buckets := [{ name := "b1", terms := ["alpha"] },
                     { name := "b2", terms := ["beta"] }],
    non_merge_relation_types := [] }

/-- Left entity's text matches both buckets (first match `b1`); right
matches only `b2`. -/
def eLft : Entity :=
  { entity_id := "l", name := "alpha beta", entity_type := "PERSON",
    description := "" }

/-- Right entity of the bucket counterexample. -/
def eRgt : Entity :=
  { entity_id := "r", name := "beta", entity_type := "PERSON",
    description := "" }

/-- The bucket-counterexample graph: the two entities, no relationships,
no chunks. -/
def gBuckets : KnowledgeGraph :=
  { entities := [eLft, eRgt], relationships := [] }

/-- The spec's words for the bucket evidence (§4.2: "both entities'
`name + description` text contains a term from the same configured role
bucket"): the buckets matched by both texts. -/
def specCommonRoleBuckets (cfg : EntityResolutionConfig)
    (l r : Entity) : List String :=
  (cfg.role_buckets.filter (fun b =>
    b.terms.any (fun t =>
      containsSub (pyLower (l.name ++ " " ++ l.description)) t) &&
    b.terms.any (fun t =>
      containsSub (pyLower (r.name ++ " " ++ r.description)) t))).map
    (fun b => b.name)

/-- C8 counterexample: both texts match the configured bucket `b2`, so
evidence exists in the claim's sense, yet the pair is omitted — the code
compares only each entity's *first*-matching bucket (`b1` vs `b2`). -/
theorem pair_with_common_bucket_omitted :
    buildPairSignal cfgTwoBuckets gBuckets eLft eRgt = none ∧
    specCommonRoleBuckets cfgTwoBuckets eLft eRgt = ["b2"] := by
  refine ⟨by decide, by decide⟩

/-- Witness for the amended C8 statement at the bucket fixture. -/
theorem pair_signal_omitted_iff_no_evidence_witness :
    buildPairSignal cfgTwoBuckets gBuckets eLft eRgt = none ↔
      (sharedNeighborIds gBuckets eLft eRgt = [] ∧
       directRelTypes gBuckets eLft.entity_id eRgt.entity_id = [] ∧
       (¬∃ b, b ≠ "" ∧ roleBucket cfgTwoBuckets eLft = some b ∧
         roleBucket cfgTwoBuckets eRgt = some b) ∧
       eLft.source_chunks.filter (fun c => c ∈ eRgt.source_chunks) = []) :=
  pair_signal_omitted_iff_no_evidence cfgTwoBuckets gBuckets eLft eRgt
    (by intro rel hrel; cases hrel)

/-! ## Lemmas about `merge_entities` (used for C4 and C7) -/

theorem mergeRecords_entity_id (c d : Entity) :
    (mergeRecords c d).entity_id = c.entity_id := rfl

theorem mergeRecords_name (c d : Entity) :
    (mergeRecords c d).name = c.name := rfl

/-- A fold that only ever appends extends its accumulator. -/
theorem foldl_extends {α : Type} (f : List α → α → List α)
    (hf : ∀ acc a, ∃ ext, f acc a = acc ++ ext) :
    ∀ (l : List α) (acc : List α), ∃ ext, l.foldl f acc = acc ++ ext := by
  intro l
  induction l with
  | nil => intro acc; exact ⟨[], (List.append_nil acc).symm⟩
  | cons x xs ih =>
      intro acc
      rw [List.foldl_cons]
      obtain ⟨e1, he1⟩ := hf acc x
      obtain ⟨e2, he2⟩ := ih (f acc x)
      exact ⟨e1 ++ e2, by rw [he2, he1, List.append_assoc]⟩

/-- The merged record's alias list extends the canonical's. -/
theorem mergeRecords_aliases_extend (c d : Entity) :
    ∃ ext, (mergeRecords c d).aliases = c.aliases ++ ext := by
  unfold mergeRecords
  simp only
  have hstep : ∀ (acc : List String) (a : String),
      ∃ ext, (if a = c.name || a ∈ acc then acc else acc ++ [a]) =
        acc ++ ext := by
    intro acc a
    by_cases h : (a = c.name || decide (a ∈ acc)) = true
    · exact ⟨[], by rw [if_pos h, List.append_nil]⟩
    · exact ⟨[a], by rw [if_neg h]⟩
  by_cases hn : (d.name = c.name || decide (d.name ∈ c.aliases)) = true
  · rw [if_pos hn]
    exact foldl_extends _ hstep d.aliases c.aliases
  · rw [if_neg hn]
    obtain ⟨ext, hext⟩ := foldl_extends _ hstep d.aliases (c.aliases ++ [d.name])
    exact ⟨[d.name] ++ ext, by rw [hext, List.append_assoc]⟩

/-- The merged record keeps every name the canonical matched. -/
theorem mergeRecords_matches_of_canonical (c d : Entity) (q : String)
    (h : matchesName c q = true) :
    matchesName (mergeRecords c d) q = true := by
  unfold matchesName at h ⊢
  rw [mergeRecords_name]
  rcases Bool.or_eq_true _ _ |>.mp h with h1 | h2
  · exact Bool.or_eq_true _ _ |>.mpr (Or.inl h1)
  · refine Bool.or_eq_true _ _ |>.mpr (Or.inr ?_)
    obtain ⟨a, ha, hq⟩ := List.any_eq_true.mp h2
    obtain ⟨ext, hext⟩ := mergeRecords_aliases_extend c d
    exact List.any_eq_true.mpr ⟨a, by rw [hext]; exact List.mem_append_left _ ha, hq⟩

/-- The merged record matches the duplicate's name. -/
theorem mergeRecords_matches_dup_name (c d : Entity) :
    matchesName (mergeRecords c d) (pyLower d.name) = true := by
  by_cases hn : (d.name = c.name || decide (d.name ∈ c.aliases)) = true
  · rcases Bool.or_eq_true _ _ |>.mp hn with h1 | h2
    · unfold matchesName
      rw [mergeRecords_name]
      refine Bool.or_eq_true _ _ |>.mpr (Or.inl ?_)
      rw [decide_eq_true_eq] at h1
      rw [h1]
      exact decide_eq_true rfl
    · refine mergeRecords_matches_of_canonical c d _ ?_
      unfold matchesName
      refine Bool.or_eq_true _ _ |>.mpr (Or.inr ?_)
      rw [decide_eq_true_eq] at h2
      exact List.any_eq_true.mpr ⟨d.name, h2, decide_eq_true rfl⟩
  · unfold matchesName
    refine Bool.or_eq_true _ _ |>.mpr (Or.inr ?_)
    refine List.any_eq_true.mpr ⟨d.name, ?_, decide_eq_true rfl⟩
    unfold mergeRecords
    simp only [if_neg hn]
    have hstep : ∀ (acc : List String) (a : String),
        ∃ ext, (if a = c.name || a ∈ acc then acc else acc ++ [a]) =
          acc ++ ext := by
      intro acc a
      by_cases h : (a = c.name || decide (a ∈ acc)) = true
      · exact ⟨[], by rw [if_pos h, List.append_nil]⟩
      · exact ⟨[a], by rw [if_neg h]⟩
    obtain ⟨ext, hext⟩ :=
      foldl_extends _ hstep d.aliases (c.aliases ++ [d.name])
    rw [hext]
    exact List.mem_append_left _ (List.mem_append_right _ (List.mem_singleton.mpr rfl))

/-- `find?` on an id characterizes the record's id field. -/
theorem get_entity_id_of_some (g : KnowledgeGraph) (x : String) (e : Entity)
    (h : g.get_entity x = some e) : e.entity_id = x := by
  unfold KnowledgeGraph.get_entity at h
  have := List.find?_some h
  exact decide_eq_true_eq.mp this

theorem get_entity_mem_of_some (g : KnowledgeGraph) (x : String) (e : Entity)
    (h : g.get_entity x = some e) : e ∈ g.entities :=
  List.mem_of_find?_eq_some h

/-- What `merge_entities` does, unfolded under its success conditions. -/
theorem merge_entities_eq (g : KnowledgeGraph) (c d : String)
    (cc dd : Entity) (hne : c ≠ d)
    (hc : g.get_entity c = some cc) (hd : g.get_entity d = some dd) :
    g.merge_entities c d =
      ({ entities := (g.entities.filter
            (fun e => e.entity_id ≠ d)).map
            (fun e => if e.entity_id = c then mergeRecords cc dd else e),
         relationships := dedupRels
           ((g.relationships.map (fun r =>
              { r with
                source_entity_id := remapId d c r.source_entity_id,
                target_entity_id := remapId d c r.target_entity_id })).filter
             (fun r => ¬(r.source_entity_id = c ∧ r.target_entity_id = c))) },
       true) := by
  unfold KnowledgeGraph.merge_entities
  rw [if_neg hne, hc, hd]

/-- After a merge, the duplicate id is gone. -/
theorem merge_entities_dup_gone (g : KnowledgeGraph) (c d : String)
    (cc dd : Entity) (hne : c ≠ d)
    (hc : g.get_entity c = some cc) (hd : g.get_entity d = some dd) :
    ((g.merge_entities c d).1).get_entity d = none := by
  rw [merge_entities_eq g c d cc dd hne hc hd]
  unfold KnowledgeGraph.get_entity
  refine List.find?_eq_none.mpr ?_
  intro x hx
  obtain ⟨e, he, hfe⟩ := List.mem_map.mp hx
  have hed : e.entity_id ≠ d := by
    have := (List.mem_filter.mp he).2
    simpa using this
  by_cases hec : e.entity_id = c
  · rw [if_pos hec] at hfe
    rw [← hfe]
    simp only [mergeRecords_entity_id, decide_eq_true_eq]
    rw [get_entity_id_of_some g c cc hc]
    exact hne
  · rw [if_neg hec] at hfe
    rw [← hfe]
    simpa using hed

/-- `find?` on the canonical id over the transformed entity list yields
the merged record. -/
theorem find_merged_canonical (ents : List Entity) (c d : String)
    (cc dd : Entity) (hne : c ≠ d) (hcc_id : cc.entity_id = c)
    (hfind : ents.find? (fun e => e.entity_id = c) = some cc) :
    ((ents.filter (fun e => e.entity_id ≠ d)).map
      (fun e => if e.entity_id = c then mergeRecords cc dd else e)).find?
        (fun e => e.entity_id = c) = some (mergeRecords cc dd) := by
  induction ents with
  | nil => cases hfind
  | cons e rest ih =>
      by_cases hec : e.entity_id = c
      · have hed : e.entity_id ≠ d := fun h => hne (hec ▸ h.symm ▸ rfl)
        rw [List.filter_cons_of_pos (by simpa using hed), List.map_cons,
          if_pos hec]
        exact List.find?_cons_of_pos _ (by
          simp [mergeRecords_entity_id, hcc_id])
      · have hfind' : rest.find? (fun e => e.entity_id = c) = some cc := by
          rw [List.find?_cons_of_neg _ (by simpa using hec)] at hfind
          exact hfind
        by_cases hed : e.entity_id = d
        · rw [List.filter_cons_of_neg (by simpa using hed)]
          exact ih hfind'
        · rw [List.filter_cons_of_pos (by simpa using hed), List.map_cons,
            if_neg hec]
          rw [List.find?_cons_of_neg _ (by simpa using hec)]
          exact ih hfind'

/-- After a merge, the canonical id resolves to the merged record. -/
theorem merge_entities_canonical (g : KnowledgeGraph) (c d : String)
    (cc dd : Entity) (hne : c ≠ d)
    (hc : g.get_entity c = some cc) (hd : g.get_entity d = some dd) :
    ((g.merge_entities c d).1).get_entity c = some (mergeRecords cc dd) := by
  rw [merge_entities_eq g c d cc dd hne hc hd]
  unfold KnowledgeGraph.get_entity
  exact find_merged_canonical g.entities c d cc dd hne
    (get_entity_id_of_some g c cc hc) hc

/-- `find?` on any untouched id over the transformed entity list agrees
with the original list. -/
theorem find_merged_other (ents : List Entity) (c d x : String)
    (cc dd : Entity) (hcc_id : cc.entity_id = c)
    (hxc : x ≠ c) (hxd : x ≠ d) :
    ((ents.filter (fun e => e.entity_id ≠ d)).map
      (fun e => if e.entity_id = c then mergeRecords cc dd else e)).find?
        (fun e => e.entity_id = x) =
      ents.find? (fun e => e.entity_id = x) := by
  induction ents with
  | nil => rfl
  | cons e rest ih =>
      by_cases hed : e.entity_id = d
      · rw [List.filter_cons_of_neg (by simpa using hed)]
        rw [List.find?_cons_of_neg _ (by
          simp only [decide_eq_true_eq]
          intro h
          exact hxd (h ▸ hed ▸ rfl))]
        exact ih
      · rw [List.filter_cons_of_pos (by simpa using hed), List.map_cons]
        by_cases hec : e.entity_id = c
        · rw [if_pos hec]
          rw [List.find?_cons_of_neg _ (by
            simp only [mergeRecords_entity_id, hcc_id, decide_eq_true_eq]
            exact fun h => hxc h.symm)]
          rw [List.find?_cons_of_neg _ (by
            simp only [decide_eq_true_eq]
            intro h
            exact hxc (h ▸ hec ▸ rfl))]
          exact ih
        · rw [if_neg hec]
          cases hpe : (decide (e.entity_id = x) : Bool) with
          | true => simp only [List.find?_cons, hpe]
          | false =>
              simp only [List.find?_cons, hpe]
              exact ih

/-- A merge leaves every other id's lookup unchanged. -/
theorem merge_entities_other (g : KnowledgeGraph) (c d : String)
    (cc dd : Entity) (hne : c ≠ d)
    (hc : g.get_entity c = some cc) (hd : g.get_entity d = some dd)
    (x : String) (hxc : x ≠ c) (hxd : x ≠ d) :
    ((g.merge_entities c d).1).get_entity x = g.get_entity x := by
  rw [merge_entities_eq g c d cc dd hne hc hd]
  unfold KnowledgeGraph.get_entity
  exact find_merged_other g.entities c d x cc dd
    (get_entity_id_of_some g c cc hc) hxc hxd

/-- Membership in a merged graph's entity list: the merged record, or an
untouched original. -/
theorem merge_entities_mem (g : KnowledgeGraph) (c d : String)
    (cc dd : Entity) (hne : c ≠ d)
    (hc : g.get_entity c = some cc) (hd : g.get_entity d = some dd)
    (e : Entity) (he : e ∈ ((g.merge_entities c d).1).entities) :
    e = mergeRecords cc dd ∨
      (e ∈ g.entities ∧ e.entity_id ≠ c ∧ e.entity_id ≠ d) := by
  rw [merge_entities_eq g c d cc dd hne hc hd] at he
  obtain ⟨e0, he0, hfe⟩ := List.mem_map.mp he
  obtain ⟨he0mem, he0d⟩ := List.mem_filter.mp he0
  by_cases hec : e0.entity_id = c
  · rw [if_pos hec] at hfe
    exact Or.inl hfe.symm
  · rw [if_neg hec] at hfe
    subst hfe
    exact Or.inr ⟨he0mem, hec, by simpa using he0d⟩

/-! ## C7 — the explicit alias-relation pass -/

/-- `_select_canonical_id` succeeds and returns a present member whenever
some candidate is present. -/
theorem selectCanonicalId_mem (cfg : EntityResolutionConfig)
    (g : KnowledgeGraph) (ids : List String) (votes : List (String × Nat))
    (x : String) (ex : Entity) (hx : x ∈ ids)
    (hgx : g.get_entity x = some ex) :
    ∃ k ek, selectCanonicalId cfg g ids votes = some k ∧ k ∈ ids ∧
      g.get_entity k = some ek := by
  unfold selectCanonicalId
  have hxc : (entityScore cfg g votes x ex, x) ∈
      ids.filterMap (fun eid => (g.get_entity eid).map
        (fun e => (entityScore cfg g votes eid e, eid))) :=
    List.mem_filterMap.mpr ⟨x, hx, by rw [hgx]; rfl⟩
  cases hc : ids.filterMap (fun eid => (g.get_entity eid).map
      (fun e => (entityScore cfg g votes eid e, eid))) with
  | nil => rw [hc] at hxc; cases hxc
  | cons c rest =>
      obtain ⟨hmem, _⟩ := foldl_best_mem_and_max rest c
      have hresc : (rest.foldl (fun b x => if candLt b x then x else b) c) ∈
          ids.filterMap (fun eid => (g.get_entity eid).map
            (fun e => (entityScore cfg g votes eid e, eid))) := by
        rw [hc]; exact hmem
      obtain ⟨k0, hk0mem, hk0⟩ := List.mem_filterMap.mp hresc
      cases hgk : g.get_entity k0 with
      | none => rw [hgk] at hk0; cases hk0
      | some ek =>
          rw [hgk] at hk0
          have hres : (rest.foldl (fun b x => if candLt b x then x else b) c)
              = (entityScore cfg g votes k0 ek, k0) :=
            (Option.some.injEq _ _ ▸ hk0).symm
          refine ⟨k0, ek, ?_, hk0mem, hgk⟩
          simp only [hc]
          rw [hres]

/-- C7 amended: an ALIAS_OF/SAME_AS relationship between two person-like
present entities forces a merge of the pair — with the canonical side
chosen by the zero-votes composite score, no confidence gate and no
non-merge-relation check — provided it is the only collected alias edge
(earlier alias merges of the same pass can remove an endpoint, in which
case the edge is skipped). -/
theorem single_alias_edge_forces_merge :
    ∀ (cfg : EntityResolutionConfig) (g : KnowledgeGraph) (l r : String)
      (el er : Entity),
      collectAliasEdges cfg g = [(l, r)] →
      g.get_entity l = some el → g.get_entity r = some er →
      l ≠ r → l ≠ "" → r ≠ "" →
      ∃ k d dk, ((k = l ∧ d = r) ∨ (k = r ∧ d = l)) ∧
        selectCanonicalId cfg g [l, r] [] = some k ∧
        mergeExplicitAliasRelationships cfg g = (g.merge_entities k d).1 ∧
        (mergeExplicitAliasRelationships cfg g).get_entity d = none ∧
        (mergeExplicitAliasRelationships cfg g).get_entity k = some dk := by
  intro cfg g l r el er hcol hgl hgr hlr hl0 hr0
  obtain ⟨k, ek, hk, hkmem, hgk⟩ :=
    selectCanonicalId_mem cfg g [l, r] [] l el (List.mem_cons_self _ _) hgl
  have hpass : mergeExplicitAliasRelationships cfg g =
      processAliasEdge cfg g (l, r) := by
    unfold mergeExplicitAliasRelationships
    rw [hcol]
    rfl
  rcases List.mem_cons.mp hkmem with hkl | hk2
  · -- canonical is l, duplicate is r
    subst hkl
    have heq : processAliasEdge cfg g (k, r) = (g.merge_entities k r).1 := by
      simp only [processAliasEdge, hgl, hgr, hk, if_neg hl0,
        eq_self_iff_true, if_true]
    refine ⟨k, r, mergeRecords el er, Or.inl ⟨rfl, rfl⟩, hk, ?_, ?_, ?_⟩
    · rw [hpass, heq]
    · rw [hpass, heq]
      exact merge_entities_dup_gone g k r el er hlr hgl hgr
    · rw [hpass, heq]
      exact merge_entities_canonical g k r el er hlr hgl hgr
  · have hkr : k = r := by
      rcases List.mem_cons.mp hk2 with h | h
      · exact h
      · cases h
    subst hkr
    have heq : processAliasEdge cfg g (l, k) = (g.merge_entities k l).1 := by
      simp only [processAliasEdge, hgl, hgr, hk, if_neg hr0,
        if_neg (Ne.symm hlr)]
    refine ⟨k, l, mergeRecords er el, Or.inr ⟨rfl, rfl⟩, hk, ?_, ?_, ?_⟩
    · rw [hpass, heq]
    · rw [hpass, heq]
      exact merge_entities_dup_gone g k l er el (fun h => hlr h.symm) hgr hgl
    · rw [hpass, heq]
      exact merge_entities_canonical g k l er el (fun h => hlr h.symm) hgr hgl

/-- Alias chain a→b→c: the canonical of the first edge absorbs b, so the
second collected edge (b, c) finds b gone and is skipped. -/
def gAliasChainCx : KnowledgeGraph :=
  { entities := [mkPerson "a" "Kim",
      { entity_id := "b", name := "he", entity_type := "PERSON",
        description := "" },
      mkPerson "c" "Cho"],
    relationships := [mkRel "r1" "a" "b" "ALIAS_OF",
                      mkRel "r2" "b" "c" "ALIAS_OF"] }

/-- C7 counterexample: both alias edges are collected (both endpoints
person-like and present in the original graph), yet after `resolve` the
entity c survives unmerged — edge (b, c) did not trigger a merge because
the first alias merge had already absorbed b into a. -/
theorem alias_edge_skipped_after_endpoint_merged :
    collectAliasEdges default_config gAliasChainCx =
      [("a", "b"), ("b", "c")] ∧
    (resolve {} llmDown gAliasChainCx).toOption.map
        (fun p => p.1.entities.map (fun e => e.entity_id)) =
      some ["a", "c"] :=
  ⟨by decide, by decide⟩

/-- A single alias edge between two persons who are also married: the
forced merge must ignore the non-merge relation set. -/
def gAliasMarried : KnowledgeGraph :=
  { entities := [mkPerson "a" "Alice", mkPerson "b" "Bob"],
    relationships := [mkRel "r1" "a" "b" "ALIAS_OF",
                      mkRel "r2" "a" "b" "MARRIED_TO"] }

/-- Witness for the amended C7 statement: the alias pair is merged even
though a direct MARRIED_TO relation exists between the two entities. -/
theorem single_alias_edge_forces_merge_witness :
    ("MARRIED_TO" ∈ directRelTypes gAliasMarried "a" "b") ∧
    ∃ k d dk, ((k = "a" ∧ d = "b") ∨ (k = "b" ∧ d = "a")) ∧
      selectCanonicalId default_config gAliasMarried ["a", "b"] [] = some k ∧
      mergeExplicitAliasRelationships default_config gAliasMarried =
        (gAliasMarried.merge_entities k d).1 ∧
      (mergeExplicitAliasRelationships default_config gAliasMarried).get_entity
        d = none ∧
      (mergeExplicitAliasRelationships default_config gAliasMarried).get_entity
        k = some dk :=
  ⟨by decide,
   single_alias_edge_forces_merge default_config gAliasMarried "a" "b"
     (mkPerson "a" "Alice") (mkPerson "b" "Bob") (by decide) (by decide)
     (by decide) (by decide) (by decide) (by decide)⟩

/-! ## C4 — transitive clustering: helper lemmas -/

theorem aGet_nil {α : Type} (k : String) : aGet ([] : AList α) k = none := rfl

theorem aGet_cons_self {α : Type} (k : String) (v : α) (rest : AList α) :
    aGet ((k, v) :: rest) k = some v := by
  unfold aGet
  rw [List.find?_cons_of_pos _ (by simp)]
  rfl

theorem aGet_cons_ne {α : Type} (k' : String) (v : α) (rest : AList α)
    (k : String) (h : k' ≠ k) : aGet ((k', v) :: rest) k = aGet rest k := by
  unfold aGet
  rw [List.find?_cons_of_neg _ (by simpa using h)]

theorem pSetdefault_of_none (m : AList String) (k : String)
    (h : aGet m k = none) : pSetdefault m k = m ++ [(k, k)] := by
  unfold pSetdefault
  unfold aGet at h
  cases hf : m.find? (fun p => p.1 = k) with
  | none => rfl
  | some v => rw [hf] at h; cases h

theorem pSetdefault_of_some (m : AList String) (k : String) (v : String)
    (h : aGet m k = some v) : pSetdefault m k = m := by
  unfold pSetdefault
  unfold aGet at h
  cases hf : m.find? (fun p => p.1 = k) with
  | none => rw [hf] at h; cases h
  | some w => rfl

theorem ufFindAux_root (fuel : Nat) (p : AList String) (k : String)
    (h : aGet p k = some k) : ufFindAux (fuel + 1) p k = (k, p) := by
  unfold ufFindAux
  rw [h]
  simp

theorem ufFind_root (p : AList String) (k : String) (h : aGet p k = some k) :
    ufFind p k = (k, p) :=
  ufFindAux_root p.length p k h

/-- One pointer-chase step: the parent is itself a root. -/
theorem ufFind_one (p : AList String) (k root : String)
    (h : aGet p k = some root) (hroot : aGet p root = some root)
    (hne : root ≠ k) : ufFind p k = (root, aSet p k root) := by
  unfold ufFind ufFindAux
  rw [h]
  simp only [if_neg hne]
  have hlen : p.length = (p.length - 1) + 1 := by
    cases p with
    | nil => cases h
    | cons q rest => simp
  rw [hlen, ufFindAux_root (p.length - 1) p root hroot]

/-- A union of two distinct roots points the right root at the left. -/
theorem ufUnion_roots (p : AList String) (a b : String)
    (ha : aGet p a = some a) (hb : aGet p b = some b) (hne : a ≠ b) :
    ufUnion p a b = aSet p b a := by
  unfold ufUnion
  rw [ufFind_root p a ha]
  simp only
  rw [ufFind_root p b hb]
  exact if_neg hne

/-- A union whose left argument is one step below a root. -/
theorem ufUnion_step_roots (p : AList String) (k root b : String)
    (hk : aGet p k = some root) (hroot : aGet p root = some root)
    (hrk : root ≠ k) (hset : aSet p k root = p)
    (hb : aGet p b = some b) (hne : root ≠ b) :
    ufUnion p k b = aSet p b root := by
  unfold ufUnion
  rw [ufFind_one p k root hk hroot hrk]
  simp only [hset]
  rw [ufFind_root p b hb]
  exact if_neg hne

/-- `find?` when every satisfying element equals a known member. -/
theorem find?_eq_of_unique {α : Type} (p : α → Bool) (m : α) :
    ∀ l : List α, m ∈ l → p m = true →
      (∀ e ∈ l, p e = true → e = m) → l.find? p = some m := by
  intro l
  induction l with
  | nil => intro h; cases h
  | cons x xs ih =>
      intro hm hpm huniq
      by_cases hpx : p x = true
      · rw [List.find?_cons_of_pos _ hpx]
        rw [huniq x (List.mem_cons_self _ _) hpx]
      · rw [List.find?_cons_of_neg _ (by simpa using hpx)]
        rcases List.mem_cons.mp hm with rfl | hm'
        · exact absurd hpm hpx
        · exact ih hm' hpm (fun e he hpe =>
            huniq e (List.mem_cons.mpr (Or.inr he)) hpe)

/-- A list containing two distinct elements has length at least two. -/
theorem two_mem_length {α : Type} (l : List α) (x y : α)
    (hx : x ∈ l) (hy : y ∈ l) (hxy : x ≠ y) : 2 ≤ l.length := by
  induction l with
  | nil => cases hx
  | cons e rest ih =>
      rcases List.mem_cons.mp hx with rfl | hx'
      · have hy' : y ∈ rest := by
          rcases List.mem_cons.mp hy with rfl | h
          · exact absurd rfl hxy
          · exact h
        have : 0 < rest.length := List.length_pos.mpr
          (List.ne_nil_of_mem hy')
        simp only [List.length_cons]
        omega
      · have : 0 < rest.length := List.length_pos.mpr
          (List.ne_nil_of_mem hx')
        simp only [List.length_cons]
        omega

/-- Every entity matches its own lowered name. -/
theorem matchesName_self_name (e : Entity) :
    matchesName e (pyLower e.name) = true := by
  unfold matchesName
  exact Bool.or_eq_true _ _ |>.mpr (Or.inl (decide_eq_true rfl))

/-- A nonempty list that fits in one batch yields a single chunk. -/
theorem chunkList_single {α : Type} (n : Nat) (l : List α)
    (hne : l ≠ []) (hlen : l.length ≤ n) : chunkList n l = [l] := by
  cases l with
  | nil => exact absurd rfl hne
  | cons x xs =>
      unfold chunkList
      have hlen' : (x :: xs).length = xs.length + 1 := by simp
      rw [hlen']
      unfold chunkListAux
      have hn : n ≠ 0 := by
        intro h
        rw [h] at hlen
        simp at hlen
      rw [if_neg hn]
      rw [List.take_of_length_le hlen, List.drop_eq_nil_of_le hlen]
      simp [chunkListAux]

/-- With no collected alias edges the explicit alias pass is inert. -/
theorem aliasPass_of_no_edges (cfg : EntityResolutionConfig)
    (g : KnowledgeGraph) (h : collectAliasEdges cfg g = []) :
    mergeExplicitAliasRelationships cfg g = g := by
  unfold mergeExplicitAliasRelationships
  rw [h]
  rfl

/-- Two successive merges into the same canonical: lookups and
membership. -/
theorem two_merges_props (g : KnowledgeGraph) (k x y : String)
    (ek ex ey : Entity)
    (hgk : g.get_entity k = some ek) (hgx : g.get_entity x = some ex)
    (hgy : g.get_entity y = some ey)
    (hkx : k ≠ x) (hky : k ≠ y) (hxy : x ≠ y) :
    (((g.merge_entities k x).1.merge_entities k y).1.get_entity k =
        some (mergeRecords (mergeRecords ek ex) ey)) ∧
    (((g.merge_entities k x).1.merge_entities k y).1.get_entity x = none) ∧
    (((g.merge_entities k x).1.merge_entities k y).1.get_entity y = none) ∧
    (∀ e ∈ (((g.merge_entities k x).1.merge_entities k y).1).entities,
      e = mergeRecords (mergeRecords ek ex) ey ∨
        (e ∈ g.entities ∧ e.entity_id ≠ k ∧ e.entity_id ≠ x ∧
          e.entity_id ≠ y)) := by
  have hg2k : ((g.merge_entities k x).1).get_entity k =
      some (mergeRecords ek ex) :=
    merge_entities_canonical g k x ek ex hkx hgk hgx
  have hg2x : ((g.merge_entities k x).1).get_entity x = none :=
    merge_entities_dup_gone g k x ek ex hkx hgk hgx
  have hg2y : ((g.merge_entities k x).1).get_entity y = some ey := by
    rw [merge_entities_other g k x ek ex hkx hgk hgx y
      (Ne.symm hky) (Ne.symm hxy)]
    exact hgy
  refine ⟨merge_entities_canonical _ k y (mergeRecords ek ex) ey hky hg2k hg2y,
    ?_, merge_entities_dup_gone _ k y (mergeRecords ek ex) ey hky hg2k hg2y,
    ?_⟩
  · rw [merge_entities_other _ k y (mergeRecords ek ex) ey hky hg2k hg2y x
      (Ne.symm hkx) hxy]
    exact hg2x
  · intro e he
    rcases merge_entities_mem _ k y (mergeRecords ek ex) ey hky hg2k hg2y
        e he with h | ⟨hmem2, hik, hiy⟩
    · exact Or.inl h
    · rcases merge_entities_mem g k x ek ex hkx hgk hgx e hmem2 with
        h | ⟨hmem, _, hix⟩
      · exfalso
        apply hik
        rw [h, mergeRecords_entity_id]
        exact get_entity_id_of_some g k ek hgk
      · exact Or.inr ⟨hmem, hik, hix, hiy⟩

theorem aSet_one {α : Type} (k : String) (v w : α) :
    aSet [(k, v)] k w = [(k, w)] := by
  unfold aSet
  rw [List.find?_cons_of_pos _ (by simp)]
  simp

theorem aSet_two {α : Type} (a b : String) (va vb v : α) (h : a ≠ b) :
    aSet [(a, va), (b, vb)] b v = [(a, va), (b, v)] := by
  unfold aSet
  rw [List.find?_cons_of_neg _ (by simpa using h),
    List.find?_cons_of_pos _ (by simp)]
  simp only [Option.isSome_some, if_true, List.map_cons, List.map_nil]
  rw [if_neg h]

theorem aSet_three_mid {α : Type} (a b c : String) (va vb vc v : α)
    (hab : a ≠ b) (hcb : c ≠ b) :
    aSet [(a, va), (b, vb), (c, vc)] b v = [(a, va), (b, v), (c, vc)] := by
  unfold aSet
  rw [List.find?_cons_of_neg _ (by simpa using hab),
    List.find?_cons_of_pos _ (by simp)]
  simp only [Option.isSome_some, if_true, List.map_cons, List.map_nil]
  rw [if_neg hab, if_neg hcb]

theorem aSet_three_last {α : Type} (a b c : String) (va vb vc v : α)
    (hac : a ≠ c) (hbc : b ≠ c) :
    aSet [(a, va), (b, vb), (c, vc)] c v = [(a, va), (b, vb), (c, v)] := by
  unfold aSet
  rw [List.find?_cons_of_neg _ (by simpa using hac),
    List.find?_cons_of_neg _ (by simpa using hbc),
    List.find?_cons_of_pos _ (by simp)]
  simp only [Option.isSome_some, if_true, List.map_cons, List.map_nil]
  rw [if_neg hac, if_neg hbc]

/-- Processing the first chain group: a vote for `a` and the union
a ← b. -/
theorem processGroup_step1 (r : Resolver) (g : KnowledgeGraph)
    (a b : String) (ea eb : Entity) (c1 : Rat)
    (hga : g.get_entity a = some ea) (hgb : g.get_entity b = some eb)
    (hpa : isPersonLike r.config ea = true)
    (hpb : isPersonLike r.config eb = true)
    (hab : a ≠ b) (hc1 : ¬ c1 < r.min_confidence)
    (hnm1 : isNonMergeablePair r.config g a b = false) :
    processGroup r g ([], []) (mkGroupObj a [b] c1) =
      .ok ([(a, 1)], [(a, a), (b, a)]) := by
  have hp0 : pSetdefault ([] : AList String) a = [(a, a)] :=
    pSetdefault_of_none [] a (aGet_nil a)
  have hp1 : pSetdefault [(a, a)] b = [(a, a), (b, b)] := by
    refine pSetdefault_of_none _ b ?_
    rw [aGet_cons_ne a a [] b hab]
    rfl
  have hunion : ufUnion [(a, a), (b, b)] a b = [(a, a), (b, a)] := by
    rw [ufUnion_roots _ a b (aGet_cons_self a a _)
      (by rw [aGet_cons_ne a a _ b hab]; exact aGet_cons_self b b _) hab]
    exact aSet_two a b a b a hab
  have hpd : processDuplicate r.config g a [] (.jstr b) = [(a, a), (b, a)] := by
    simp only [processDuplicate, hgb, hpb, not_true_eq_false, if_false,
      hnm1, Bool.false_eq_true, hp0, hp1, hunion]
  simp only [processGroup]
  have hconf : jGetD (mkGroupObj a [b] c1) "confidence" (.jnum 0) =
      .jnum c1 := rfl
  have hcan : jGetD (mkGroupObj a [b] c1) "canonical_entity_id" .jnull =
      .jstr a := rfl
  have hdup : jGetD (mkGroupObj a [b] c1) "duplicate_entity_ids"
      (.jarr []) = .jarr [.jstr b] := rfl
  simp only [hconf, hcan, hdup, pyFloat, bind, Except.bind, if_neg hc1,
    hga, hpa, not_true_eq_false, if_false, List.find?_nil, List.foldl_cons,
    List.foldl_nil, hpd]
  rfl

/-- Processing the second chain group on the state left by the first:
a vote for `b` and the union a ← c (through b's root a). -/
theorem processGroup_step2 (r : Resolver) (g : KnowledgeGraph)
    (a b c : String) (eb ec : Entity) (c2 : Rat)
    (hgb : g.get_entity b = some eb) (hgc : g.get_entity c = some ec)
    (hpb : isPersonLike r.config eb = true)
    (hpc : isPersonLike r.config ec = true)
    (hab : a ≠ b) (hac : a ≠ c) (hbc : b ≠ c)
    (hc2 : ¬ c2 < r.min_confidence)
    (hnm2 : isNonMergeablePair r.config g b c = false) :
    processGroup r g ([(a, 1)], [(a, a), (b, a)]) (mkGroupObj b [c] c2) =
      .ok ([(a, 1), (b, 1)], [(a, a), (b, a), (c, a)]) := by
  have hp0 : pSetdefault [(a, a), (b, a)] b = [(a, a), (b, a)] := by
    refine pSetdefault_of_some _ b a ?_
    rw [aGet_cons_ne a a _ b hab]
    exact aGet_cons_self b a _
  have hp1 : pSetdefault [(a, a), (b, a)] c = [(a, a), (b, a), (c, c)] := by
    refine pSetdefault_of_none _ c ?_
    rw [aGet_cons_ne a a _ c hac, aGet_cons_ne b a _ c hbc]
    rfl
  have hgetb : aGet [(a, a), (b, a), (c, c)] b = some a := by
    rw [aGet_cons_ne a a _ b hab]
    exact aGet_cons_self b a _
  have hgeta : aGet [(a, a), (b, a), (c, c)] a = some a :=
    aGet_cons_self a a _
  have hgetc : aGet [(a, a), (b, a), (c, c)] c = some c := by
    rw [aGet_cons_ne a a _ c hac, aGet_cons_ne b a _ c hbc]
    exact aGet_cons_self c c _
  have hset : aSet [(a, a), (b, a), (c, c)] b a = [(a, a), (b, a), (c, c)] :=
    aSet_three_mid a b c a a c a hab (Ne.symm hbc)
  have hunion : ufUnion [(a, a), (b, a), (c, c)] b c =
      [(a, a), (b, a), (c, a)] := by
    rw [ufUnion_step_roots _ b a c hgetb hgeta hab hset hgetc hac]
    exact aSet_three_last a b c a a c a hac hbc
  have hpd : processDuplicate r.config g b [(a, a), (b, a)] (.jstr c) =
      [(a, a), (b, a), (c, a)] := by
    simp only [processDuplicate, hgc, hpc, not_true_eq_false, if_false,
      hnm2, Bool.false_eq_true, hp0, hp1, hunion]
  simp only [processGroup]
  have hconf : jGetD (mkGroupObj b [c] c2) "confidence" (.jnum 0) =
      .jnum c2 := rfl
  have hcan : jGetD (mkGroupObj b [c] c2) "canonical_entity_id" .jnull =
      .jstr b := rfl
  have hdup : jGetD (mkGroupObj b [c] c2) "duplicate_entity_ids"
      (.jarr []) = .jarr [.jstr c] := rfl
  simp only [hconf, hcan, hdup, pyFloat, bind, Except.bind, if_neg hc2,
    hgb, hpb, not_true_eq_false, if_false, List.foldl_cons, List.foldl_nil,
    hpd]
  have hfind : List.find? (fun v => v.1 = b) [(a, (1 : Nat))] = none := by
    rw [List.find?_cons_of_neg _ (by simpa using hab)]
    rfl
  rw [hfind]
  rfl

/-- Collecting the clusters of the chain's final parent map. -/
theorem buildClusters_chain (a b c : String)
    (hab : a ≠ b) (hac : a ≠ c) (hbc : b ≠ c) :
    buildClusters [(a, a), (b, a), (c, a)] = [(a, [a, b, c])] := by
  have hgeta : aGet [(a, a), (b, a), (c, a)] a = some a :=
    aGet_cons_self a a _
  have hgetb : aGet [(a, a), (b, a), (c, a)] b = some a := by
    rw [aGet_cons_ne a a _ b hab]
    exact aGet_cons_self b a _
  have hgetc : aGet [(a, a), (b, a), (c, a)] c = some a := by
    rw [aGet_cons_ne a a _ c hac, aGet_cons_ne b a _ c hbc]
    exact aGet_cons_self c a _
  have hsetb : aSet [(a, a), (b, a), (c, a)] b a =
      [(a, a), (b, a), (c, a)] :=
    aSet_three_mid a b c a a a a hab (Ne.symm hbc)
  have hsetc : aSet [(a, a), (b, a), (c, a)] c a =
      [(a, a), (b, a), (c, a)] :=
    aSet_three_last a b c a a a a hac hbc
  have hfa : ufFind [(a, a), (b, a), (c, a)] a = (a, [(a, a), (b, a), (c, a)]) :=
    ufFind_root _ a hgeta
  have hfb : ufFind [(a, a), (b, a), (c, a)] b = (a, [(a, a), (b, a), (c, a)]) := by
    rw [ufFind_one _ b a hgetb hgeta hab, hsetb]
  have hfc : ufFind [(a, a), (b, a), (c, a)] c = (a, [(a, a), (b, a), (c, a)]) := by
    rw [ufFind_one _ c a hgetc hgeta hac, hsetc]
  unfold buildClusters
  simp only [List.map_cons, List.map_nil, List.foldl_cons, List.foldl_nil,
    List.nil_append, hfa, hfb, hfc, aGet_nil, aGet_cons_self, aSet_one,
    List.cons_append]

/-- `_apply_merge_groups` on exactly the two chain groups reduces to
merging the single cluster {a, b, c} with one vote each for a and b. -/
theorem applyMergeGroups_chain (r : Resolver) (g : KnowledgeGraph)
    (a b c : String) (ea eb ec : Entity) (c1 c2 : Rat)
    (hga : g.get_entity a = some ea) (hgb : g.get_entity b = some eb)
    (hgc : g.get_entity c = some ec)
    (hpa : isPersonLike r.config ea = true)
    (hpb : isPersonLike r.config eb = true)
    (hpc : isPersonLike r.config ec = true)
    (hab : a ≠ b) (hac : a ≠ c) (hbc : b ≠ c)
    (hc1 : ¬ c1 < r.min_confidence) (hc2 : ¬ c2 < r.min_confidence)
    (hnm1 : isNonMergeablePair r.config g a b = false)
    (hnm2 : isNonMergeablePair r.config g b c = false) :
    applyMergeGroups r g [mkGroupObj a [b] c1, mkGroupObj b [c] c2] =
      .ok (mergeClusters r g [[a, b, c]] [(a, 1), (b, 1)]) := by
  unfold applyMergeGroups
  rw [List.foldlM_cons,
    processGroup_step1 r g a b ea eb c1 hga hgb hpa hpb hab hc1 hnm1]
  simp only [bind, Except.bind]
  rw [List.foldlM_cons,
    processGroup_step2 r g a b c eb ec c2 hgb hgc hpb hpc hab hac hbc
      hc2 hnm2]
  simp only [List.foldlM_nil, bind, Except.bind, pure, Except.pure]
  rw [buildClusters_chain a b c hab hac hbc]
  rfl

/-- After the two merges, every name the survivor matches resolves to
the survivor, given that no unrelated entity matches it. -/
theorem lookup_survivor (g g3 : KnowledgeGraph) (k x y : String)
    (surv : Entity) (n : String)
    (hg3k : g3.get_entity k = some surv)
    (hmem3 : ∀ e ∈ g3.entities, e = surv ∨
      (e ∈ g.entities ∧ e.entity_id ≠ k ∧ e.entity_id ≠ x ∧
        e.entity_id ≠ y))
    (hmatch : matchesName surv (pyLower n) = true)
    (hshadow : ∀ e ∈ g.entities, e.entity_id ≠ k → e.entity_id ≠ x →
      e.entity_id ≠ y → matchesName e (pyLower n) = false) :
    g3.get_entity_by_name n = some surv := by
  unfold KnowledgeGraph.get_entity_by_name
  refine find?_eq_of_unique _ surv g3.entities
    (get_entity_mem_of_some g3 k surv hg3k) hmatch ?_
  intro e he hpe
  rcases hmem3 e he with h | ⟨hmem, h1, h2, h3⟩
  · exact h
  · rw [hshadow e hmem h1 h2 h3] at hpe
    cases hpe

/-- Merging the single chain cluster: one of the three ids survives, the
others vanish, and every one of the three original names resolves to the
survivor. -/
theorem mergeClusters_three (r : Resolver) (g : KnowledgeGraph)
    (a b c : String) (ea eb ec : Entity)
    (hga : g.get_entity a = some ea) (hgb : g.get_entity b = some eb)
    (hgc : g.get_entity c = some ec)
    (hab : a ≠ b) (hac : a ≠ c) (hbc : b ≠ c)
    (ha0 : a ≠ "") (hb0 : b ≠ "") (hc0 : c ≠ "")
    (hshadow : ∀ e ∈ g.entities, e.entity_id ≠ a → e.entity_id ≠ b →
      e.entity_id ≠ c →
      matchesName e (pyLower ea.name) = false ∧
      matchesName e (pyLower eb.name) = false ∧
      matchesName e (pyLower ec.name) = false) :
    ∃ k, (k = a ∨ k = b ∨ k = c) ∧
      ((mergeClusters r g [[a, b, c]] [(a, 1), (b, 1)]).get_entity k).isSome ∧
      (∀ x, (x = a ∨ x = b ∨ x = c) → x ≠ k →
        (mergeClusters r g [[a, b, c]] [(a, 1), (b, 1)]).get_entity x
          = none) ∧
      (∀ n, (n = ea.name ∨ n = eb.name ∨ n = ec.name) →
        ∃ e, (mergeClusters r g [[a, b, c]]
            [(a, 1), (b, 1)]).get_entity_by_name n = some e ∧
          e.entity_id = k) := by
  obtain ⟨k, ek, hsel, hkmem, hgk⟩ := selectCanonicalId_mem r.config g
    [a, b, c] [(a, 1), (b, 1)] a ea (List.mem_cons_self _ _) hga
  have hkabc : k = a ∨ k = b ∨ k = c := by
    rcases List.mem_cons.mp hkmem with h | h'
    · exact Or.inl h
    · rcases List.mem_cons.mp h' with h | h''
      · exact Or.inr (Or.inl h)
      · rcases List.mem_cons.mp h'' with h | h
        · exact Or.inr (Or.inr h)
        · cases h
  have hk0 : k ≠ "" := by
    rcases hkabc with rfl | rfl | rfl
    · exact ha0
    · exact hb0
    · exact hc0
  have hred : mergeClusters r g [[a, b, c]] [(a, 1), (b, 1)] =
      [a, b, c].foldl
        (fun g2 eid =>
          if eid = k then g2
          else if (g2.get_entity eid).isNone then g2
          else (g2.merge_entities k eid).1) g := by
    unfold mergeClusters
    simp only [List.foldl_cons, List.foldl_nil]
    rw [if_neg (by simp)]
    simp only [hsel]
    rw [if_neg hk0]
  rcases hkabc with rfl | rfl | rfl
  · -- canonical a; merges b then c
    have heka : ek = ea := by
      rw [hga] at hgk
      exact (Option.some.inj hgk).symm
    have hfold : [k, b, c].foldl
        (fun g2 eid =>
          if eid = k then g2
          else if (g2.get_entity eid).isNone then g2
          else (g2.merge_entities k eid).1) g =
        ((g.merge_entities k b).1.merge_entities k c).1 := by
      simp only [List.foldl_cons, List.foldl_nil, if_pos rfl, if_true,
        if_neg (Ne.symm hab), if_neg (Ne.symm hac), hgb,
        Option.isNone_some, Bool.false_eq_true, if_false]
      rw [merge_entities_other g k b ea eb hab hga hgb c
        (Ne.symm hac) (Ne.symm hbc), hgc]
      rfl
    obtain ⟨hk3, hx3, hy3, hmem3⟩ :=
      two_merges_props g k b c ea eb ec hga hgb hgc hab hac hbc
    have hsurvid : (mergeRecords (mergeRecords ea eb) ec).entity_id = k := by
      simp only [mergeRecords_entity_id]
      exact get_entity_id_of_some g k ea hga
    refine ⟨k, Or.inl rfl, ?_, ?_, ?_⟩
    · rw [hred, hfold, hk3]; rfl
    · intro x hx hxk
      rcases hx with rfl | rfl | rfl
      · exact absurd rfl hxk
      · rw [hred, hfold]; exact hx3
      · rw [hred, hfold]; exact hy3
    · intro n hn
      refine ⟨mergeRecords (mergeRecords ea eb) ec, ?_, hsurvid⟩
      rw [hred, hfold]
      refine lookup_survivor g _ k b c _ n hk3 hmem3 ?_
        (fun e he h1 h2 h3 => ?_)
      · rcases hn with rfl | rfl | rfl
        · exact mergeRecords_matches_of_canonical _ ec _
            (mergeRecords_matches_of_canonical ea eb _
              (matchesName_self_name ea))
        · exact mergeRecords_matches_of_canonical _ ec _
            (mergeRecords_matches_dup_name ea eb)
        · exact mergeRecords_matches_dup_name (mergeRecords ea eb) ec
      · rcases hn with rfl | rfl | rfl
        · exact (hshadow e he h1 h2 h3).1
        · exact (hshadow e he h1 h2 h3).2.1
        · exact (hshadow e he h1 h2 h3).2.2
  · -- canonical b; merges a then c
    have hekb : ek = eb := by
      rw [hgb] at hgk
      exact (Option.some.inj hgk).symm
    have hfold : [a, k, c].foldl
        (fun g2 eid =>
          if eid = k then g2
          else if (g2.get_entity eid).isNone then g2
          else (g2.merge_entities k eid).1) g =
        ((g.merge_entities k a).1.merge_entities k c).1 := by
      simp only [List.foldl_cons, List.foldl_nil, if_pos rfl, if_true,
        if_neg hab, if_neg (Ne.symm hbc), hga,
        Option.isNone_some, Bool.false_eq_true, if_false]
      rw [merge_entities_other g k a eb ea (Ne.symm hab) hgb hga c
        (Ne.symm hbc) (Ne.symm hac), hgc]
      rfl
    obtain ⟨hk3, hx3, hy3, hmem3⟩ :=
      two_merges_props g k a c eb ea ec hgb hga hgc (Ne.symm hab) hbc hac
    have hsurvid : (mergeRecords (mergeRecords eb ea) ec).entity_id = k := by
      simp only [mergeRecords_entity_id]
      exact get_entity_id_of_some g k eb hgb
    refine ⟨k, Or.inr (Or.inl rfl), ?_, ?_, ?_⟩
    · rw [hred, hfold, hk3]; rfl
    · intro x hx hxk
      rcases hx with rfl | rfl | rfl
      · rw [hred, hfold]; exact hx3
      · exact absurd rfl hxk
      · rw [hred, hfold]; exact hy3
    · intro n hn
      refine ⟨mergeRecords (mergeRecords eb ea) ec, ?_, hsurvid⟩
      rw [hred, hfold]
      refine lookup_survivor g _ k a c _ n hk3 hmem3 ?_
        (fun e he h1 h2 h3 => ?_)
      · rcases hn with rfl | rfl | rfl
        · exact mergeRecords_matches_of_canonical _ ec _
            (mergeRecords_matches_dup_name eb ea)
        · exact mergeRecords_matches_of_canonical _ ec _
            (mergeRecords_matches_of_canonical eb ea _
              (matchesName_self_name eb))
        · exact mergeRecords_matches_dup_name (mergeRecords eb ea) ec
      · rcases hn with rfl | rfl | rfl
        · exact (hshadow e he h2 h1 h3).1
        · exact (hshadow e he h2 h1 h3).2.1
        · exact (hshadow e he h2 h1 h3).2.2
  · -- canonical c; merges a then b
    have hekc : ek = ec := by
      rw [hgc] at hgk
      exact (Option.some.inj hgk).symm
    have hfold : [a, b, k].foldl
        (fun g2 eid =>
          if eid = k then g2
          else if (g2.get_entity eid).isNone then g2
          else (g2.merge_entities k eid).1) g =
        ((g.merge_entities k a).1.merge_entities k b).1 := by
      simp only [List.foldl_cons, List.foldl_nil, if_pos rfl, if_true,
        if_neg hac, if_neg hbc, hga,
        Option.isNone_some, Bool.false_eq_true, if_false]
      rw [merge_entities_other g k a ec ea (Ne.symm hac) hgc hga b
        hbc (Ne.symm hab), hgb]
      rfl
    obtain ⟨hk3, hx3, hy3, hmem3⟩ :=
      two_merges_props g k a b ec ea eb hgc hga hgb (Ne.symm hac)
        (Ne.symm hbc) hab
    have hsurvid : (mergeRecords (mergeRecords ec ea) eb).entity_id = k := by
      simp only [mergeRecords_entity_id]
      exact get_entity_id_of_some g k ec hgc
    refine ⟨k, Or.inr (Or.inr rfl), ?_, ?_, ?_⟩
    · rw [hred, hfold, hk3]; rfl
    · intro x hx hxk
      rcases hx with rfl | rfl | rfl
      · rw [hred, hfold]; exact hx3
      · rw [hred, hfold]; exact hy3
      · exact absurd rfl hxk
    · intro n hn
      refine ⟨mergeRecords (mergeRecords ec ea) eb, ?_, hsurvid⟩
      rw [hred, hfold]
      refine lookup_survivor g _ k a b _ n hk3 hmem3 ?_
        (fun e he h1 h2 h3 => ?_)
      · rcases hn with rfl | rfl | rfl
        · exact mergeRecords_matches_of_canonical _ eb _
            (mergeRecords_matches_dup_name ec ea)
        · exact mergeRecords_matches_dup_name (mergeRecords ec ea) eb
        · exact mergeRecords_matches_of_canonical _ eb _
            (mergeRecords_matches_of_canonical ec ea _
              (matchesName_self_name ec))
      · rcases hn with rfl | rfl | rfl
        · exact (hshadow e he h2 h3 h1).1
        · exact (hshadow e he h2 h3 h1).2.1
        · exact (hshadow e he h2 h3 h1).2.2

/-- C4 amended: when the accepted merge groups of the one batch of a
resolve call are exactly (canonical A, dup B) and (canonical B, dup C) —
with A, B, C distinct person-like entities present, both groups at or
above the confidence threshold, no blocking direct relation within either
pair, an inert alias pass, a single batch, and the three names resolving
only to the three entities — then exactly one of the three survives and
that single entity is reachable by `get_entity_by_name` under all three
original names. -/
theorem transitive_chain_collapses_to_one :
    ∀ (r : Resolver) (llm : LLMOracle) (g : KnowledgeGraph)
      (a b c : String) (ea eb ec : Entity) (c1 c2 : Rat),
      collectAliasEdges r.config g = [] →
      (g.entities.filter (isPersonLike r.config)).length ≤
        r.max_entities_per_pass →
      parseBatchResponse (llm 0) =
        [mkGroupObj a [b] c1, mkGroupObj b [c] c2] →
      g.get_entity a = some ea → g.get_entity b = some eb →
      g.get_entity c = some ec →
      isPersonLike r.config ea = true → isPersonLike r.config eb = true →
      isPersonLike r.config ec = true →
      a ≠ b → a ≠ c → b ≠ c → a ≠ "" → b ≠ "" → c ≠ "" →
      ¬ c1 < r.min_confidence → ¬ c2 < r.min_confidence →
      isNonMergeablePair r.config g a b = false →
      isNonMergeablePair r.config g b c = false →
      (∀ e ∈ g.entities, e.entity_id ≠ a → e.entity_id ≠ b →
        e.entity_id ≠ c →
        matchesName e (pyLower ea.name) = false ∧
        matchesName e (pyLower eb.name) = false ∧
        matchesName e (pyLower ec.name) = false) →
      ∃ g' k, resolve r llm g = .ok (g', 1) ∧
        (k = a ∨ k = b ∨ k = c) ∧
        (g'.get_entity k).isSome ∧
        (∀ x, (x = a ∨ x = b ∨ x = c) → x ≠ k → g'.get_entity x = none) ∧
        (∀ n, (n = ea.name ∨ n = eb.name ∨ n = ec.name) →
          ∃ e, g'.get_entity_by_name n = some e ∧ e.entity_id = k) := by
  intro r llm g a b c ea eb ec c1 c2 hcol hmax hresp hga hgb hgc hpa hpb
    hpc hab hac hbc ha0 hb0 hc0 hc1 hc2 hnm1 hnm2 hshadow
  have hg1 := aliasPass_of_no_edges r.config g hcol
  have heaP : ea ∈ g.entities.filter (isPersonLike r.config) :=
    List.mem_filter.mpr ⟨get_entity_mem_of_some g a ea hga, hpa⟩
  have hebP : eb ∈ g.entities.filter (isPersonLike r.config) :=
    List.mem_filter.mpr ⟨get_entity_mem_of_some g b eb hgb, hpb⟩
  have heane : ea ≠ eb := by
    intro h
    apply hab
    rw [← get_entity_id_of_some g a ea hga, h,
      get_entity_id_of_some g b eb hgb]
  have hlen2 : 2 ≤ (g.entities.filter (isPersonLike r.config)).length :=
    two_mem_length _ ea eb heaP hebP heane
  have hnz : g.entities.filter (isPersonLike r.config) ≠ [] := by
    intro h
    rw [h] at hlen2
    simp at hlen2
  have hres : resolve r llm g =
      .ok (mergeClusters r g [[a, b, c]] [(a, 1), (b, 1)], 1) := by
    unfold resolve
    rw [hg1]
    rw [if_neg (by omega :
      ¬ (g.entities.filter (isPersonLike r.config)).length < 2)]
    rw [chunkList_single _ _ hnz hmax]
    simp only [runBatches]
    rw [hresp]
    rw [applyMergeGroups_chain r g a b c ea eb ec c1 c2 hga hgb hgc hpa
      hpb hpc hab hac hbc hc1 hc2 hnm1 hnm2]
    simp only [bind, Except.bind, runBatches]
  obtain ⟨k, hkabc, hsome, hothers, hnames⟩ :=
    mergeClusters_three r g a b c ea eb ec hga hgb hgc hab hac hbc
      ha0 hb0 hc0 hshadow
  exact ⟨mergeClusters r g [[a, b, c]] [(a, 1), (b, 1)], k, hres,
    hkabc, hsome, hothers, hnames⟩

/-- Witness for the amended C4 statement on the three-person chain
fixture. -/
theorem transitive_chain_collapses_to_one_witness :
    ∃ g' k, resolve {} (llmConst respChain) gChain = .ok (g', 1) ∧
      (k = "a" ∨ k = "b" ∨ k = "c") ∧
      (g'.get_entity k).isSome ∧
      (∀ x, (x = "a" ∨ x = "b" ∨ x = "c") → x ≠ k →
        g'.get_entity x = none) ∧
      (∀ n, (n = (mkPerson "a" "Ann").name ∨ n = (mkPerson "b" "Ben").name ∨
          n = (mkPerson "c" "Cy").name) →
        ∃ e, g'.get_entity_by_name n = some e ∧ e.entity_id = k) :=
  transitive_chain_collapses_to_one {} (llmConst respChain) gChain
    "a" "b" "c" (mkPerson "a" "Ann") (mkPerson "b" "Ben")
    (mkPerson "c" "Cy") (mkRat 95 100) (mkRat 95 100)
    (by decide) (by decide) rfl (by decide) (by decide) (by decide)
    (by decide) (by decide) (by decide) (by decide) (by decide)
    (by decide) (by decide) (by decide) (by decide) (by decide)
    (by decide) (by decide) (by decide) (by decide)

/-- Four persons: d has a relationship (to a non-person organization),
giving it the winning composite score in the chain's cluster. -/
def gFour : KnowledgeGraph :=
  { entities := [mkPerson "a" "Ann", mkPerson "b" "Ben", mkPerson "c" "Cy",
      mkPerson "d" "Dee",
      { entity_id := "x", name := "Office", entity_type := "ORGANIZATION",
        description := "" }],
    relationships := [mkRel "r1" "d" "x" "WORKS_FOR"] }

/-- The chain groups (a,[b]) and (b,[c]) plus an extra accepted group
(d,[a]). -/
def respFour : JObj :=
  [("merge_groups", .jarr [mkGroup "a" ["b"] (mkRat 9 10),
                           mkGroup "b" ["c"] (mkRat 9 10),
                           mkGroup "d" ["a"] (mkRat 9 10)])]

/-- C4 counterexample: the accepted groups include (canonical a, dup b)
and (canonical b, dup c) — distinct person-like entities, both groups
above the 0.75 threshold, no blocking relation in either pair — yet after
`resolve` none of the three survives: the extra accepted group (d,[a])
joins the cluster and d wins canonical selection. -/
theorem transitive_chain_but_none_of_the_three_survives :
    parseBatchResponse (llmConst respFour 0) =
      [mkGroupObj "a" ["b"] (mkRat 9 10), mkGroupObj "b" ["c"] (mkRat 9 10),
       mkGroupObj "d" ["a"] (mkRat 9 10)] ∧
    isNonMergeablePair default_config gFour "a" "b" = false ∧
    isNonMergeablePair default_config gFour "b" "c" = false ∧
    ¬ (mkRat 9 10) < ({} : Resolver).min_confidence ∧
    (resolve {} (llmConst respFour) gFour).toOption.map
        (fun p => (p.1.get_entity "a", p.1.get_entity "b",
          p.1.get_entity "c", (p.1.get_entity "d").isSome)) =
      some (none, none, none, true) :=
  ⟨rfl, by decide, by decide, by decide, by decide⟩

end MiniGraphRag
